import Mathlib

/-!
Verification of the per-node OLSR protocol engine of the olsrsim simulator.

The Go source represents the neighbor and topology tables as `map` values
keyed by `NodeID`.  We embed such a map as an association list
`List (NodeID × α)`: `mapFind` is map indexing (first matching key),
`mapInsert` is map assignment (replace the binding if the key is present,
append it otherwise), and deletion is a `filter`.  Go map iteration order is
unspecified, so every property we prove is insensitive to list order except
where the source itself sorts.

The greedy MPR loop in the source indexes `nodes[0]` without checking that
the slice is nonempty; we model that potential panic with an `Option` result
and propagate it through `handleHello` and the tick loop.
-/

namespace Olsr

/-- A node identifier, `uint` in the source. -/
abbrev NodeID := Nat

/-- A Go map keyed by `NodeID`, embedded as an association list. -/
abbrev MapN (α : Type) := List (NodeID × α)

/-- Map indexing: the value at the first binding of key `k`, if any. -/
def mapFind {α : Type} (k : NodeID) : MapN α → Option α
  | [] => none
  | p :: rest => if p.1 = k then some p.2 else mapFind k rest

/-- Map assignment `m[k] = v`: replace the first binding of `k`, or append one. -/
def mapInsert {α : Type} (k : NodeID) (v : α) : MapN α → MapN α
  | [] => [(k, v)]
  | p :: rest => if p.1 = k then (k, v) :: rest else p :: mapInsert k v rest

/-- The keys of an embedded map. -/
def mapKeys {α : Type} (m : MapN α) : List NodeID := m.map Prod.fst

/-- Insertion into a Go map used as a set (`m[x] = x`): no-op when present. -/
def setInsert (s : List NodeID) (x : NodeID) : List NodeID :=
  if x ∈ s then s else s ++ [x]

/-! ### Data model (message.go and the node source file) -/

/-- `HelloMessage` from message.go. -/
structure HelloMessage where
  src : NodeID
  unidir : List NodeID
  bidir : List NodeID
  mpr : List NodeID
  deriving DecidableEq, Repr

/-- `DataMessage` from message.go. -/
structure DataMessage where
  src : NodeID
  dst : NodeID
  nxtHop : NodeID
  fromnbr : NodeID
  data : String
  deriving DecidableEq, Repr

/-- `TCMessage` from message.go; `seq` is a machine integer used only as a
counter starting from 0, embedded as `Nat`. -/
structure TCMessage where
  src : NodeID
  fromnbr : NodeID
  seq : Nat
  ms : List NodeID
  deriving DecidableEq, Repr

/-- The tagged union of values sent over the untyped channel. -/
inductive Message where
  | hello (m : HelloMessage)
  | data (m : DataMessage)
  | tc (m : TCMessage)
  deriving DecidableEq, Repr

/-- `NeighborState`: `Bidirectional` is the Go zero value (iota 0). -/
inductive NeighborState where
  | Bidirectional
  | Unidirectional
  | MPR
  deriving DecidableEq, Repr

/-- `OneHopNeighborEntry` from the node source file. -/
structure OneHopNeighborEntry where
  neighborID : NodeID
  state : NeighborState
  holdUntil : Nat
  deriving DecidableEq, Repr

/-- `TopologyEntry` from the node source file. -/
structure TopologyEntry where
  dst : NodeID
  dstMPR : NodeID
  msSeqNum : Nat
  holdUntil : Nat
  deriving DecidableEq, Repr

/-- The protocol-relevant mutable state of a `Node`.  The channels, the log
sinks, the stubbed routing table and the pending data message (whose tick
branch in `run` has an empty body) are omitted: no claim mentions them.
The inner Go map of `twoHopNeighbors` maps ids to themselves, i.e. it is a
set, embedded as a duplicate-free list; likewise `msSet`. -/
structure Node where
  id : NodeID
  topologyTable : MapN (MapN TopologyEntry)
  tcSequenceNum : Nat
  topologyHoldTime : Nat
  oneHopNeighbors : MapN OneHopNeighborEntry
  twoHopNeighbors : MapN (List NodeID)
  msSet : List NodeID
  currentTime : Nat
  neighborHoldTime : Nat
  deriving DecidableEq, Repr

/-- `NewNode`: every field not assigned in the source keeps its Go zero
value; in particular `topologyHoldTime` is never assigned and is 0. -/
def NewNode (id : NodeID) : Node :=
  { id := id
  , topologyTable := []
  , tcSequenceNum := 0
  , topologyHoldTime := 0
  , oneHopNeighbors := []
  , twoHopNeighbors := []
  , msSet := []
  , currentTime := 0
  , neighborHoldTime := 15 }

/-! ### HELLO reception -/

/-- `updateOneHopNeighbors` from the node source file.  The Go loop over
`append(msg.unidir, append(msg.bidir, msg.mpr...)...)` that sets the state
to `Bidirectional` and breaks on the first occurrence of `id` is embedded
as a membership test. -/
def updateOneHopNeighbors (msg : HelloMessage) (oneHopNeighbors : MapN OneHopNeighborEntry)
    (holdUntil : Nat) (id : NodeID) : MapN OneHopNeighborEntry :=
  match mapFind msg.src oneHopNeighbors with
  | none =>
    mapInsert msg.src
      { neighborID := msg.src, state := .Unidirectional, holdUntil := holdUntil }
      oneHopNeighbors
  | some entry =>
    let entry₁ := { entry with holdUntil := holdUntil }
    let entry₂ :=
      if id ∈ msg.unidir ++ (msg.bidir ++ msg.mpr) then
        { entry₁ with state := .Bidirectional }
      else entry₁
    mapInsert msg.src entry₂ oneHopNeighbors

/-- `updateTwoHopNeighbors` from the node source file: a fresh set is built
from `msg.unidir ++ msg.bidir`, skipping the receiving node's own id, and
replaces any previous set for `msg.src`. -/
def updateTwoHopNeighbors (msg : HelloMessage) (twoHopNeighbors : MapN (List NodeID))
    (id : NodeID) : MapN (List NodeID) :=
  let twoHops :=
    (msg.unidir ++ msg.bidir).foldl (fun s nodeID => if nodeID = id then s else setInsert s nodeID) []
  mapInsert msg.src twoHops twoHopNeighbors

/-- The state the source reads for a one-hop key: `ohn, _ := oneHopNeighbors[node]`
yields the zero-value entry when the key is absent, whose state is
`Bidirectional` (iota 0). -/
def neighborStateOf (oneHopNeighbors : MapN OneHopNeighborEntry) (k : NodeID) : NeighborState :=
  match mapFind k oneHopNeighbors with
  | some e => e.state
  | none => .Bidirectional

/-- The two-hop set the source reads for key `c` (`twoHopNeighbors[c]`,
zero value `nil` when absent). -/
def twoHopsOf (twoHopNeighbors : MapN (List NodeID)) (c : NodeID) : List NodeID :=
  (mapFind c twoHopNeighbors).getD []

/-- Ascending insertion into a sorted list, used to embed
`sort.SliceStable(nodes, ascending)`. -/
def insertAsc (x : NodeID) : List NodeID → List NodeID
  | [] => [x]
  | y :: ys => if x ≤ y then x :: y :: ys else y :: insertAsc x ys

/-- Sort a list of node ids ascending. -/
def sortAsc (l : List NodeID) : List NodeID := l.foldr insertAsc []

/-- The greedy selection loop of `calculateMPRs`.  Each iteration pops
`nodes[0]`, records it as an MPR and removes everything it covers from
`remaining`.  The source indexes `nodes[0]` without a bounds check, so an
exhausted candidate list with uncovered two-hops left is a panic, embedded
as `none`. -/
def greedyMPRs (two : MapN (List NodeID)) :
    List NodeID → List NodeID → List NodeID → Option (List NodeID)
  | nodes, remaining, mprs =>
    if remaining.isEmpty then some mprs
    else
      match nodes with
      | [] => none
      | c :: rest =>
        greedyMPRs two rest (remaining.filter fun x => decide (x ∉ twoHopsOf two c)) (mprs ++ [c])

/-- The final state-reassignment loop of `calculateMPRs`, applied to every
one-hop entry. -/
def adjustEntry (mprs : List NodeID) (k : NodeID) (e : OneHopNeighborEntry) : OneHopNeighborEntry :=
  if k ∈ mprs then { e with state := .MPR }
  else if e.state = .MPR then { e with state := .Bidirectional }
  else e

/-- Rewrite the states of all one-hop entries from a selected MPR set. -/
def applyMPRs (mprs : List NodeID) (one : MapN OneHopNeighborEntry) : MapN OneHopNeighborEntry :=
  one.map fun p => (p.1, adjustEntry mprs p.1 p.2)

/-- `calculateMPRs` from the node source file: candidates are the two-hop
keys whose one-hop state is not `Unidirectional` (absent keys read as the
zero value, state `Bidirectional`), sorted ascending; `remaining` is the
union of the candidates' two-hop sets; then the greedy loop runs and the
one-hop states are rewritten. -/
def calculateMPRs (one : MapN OneHopNeighborEntry) (two : MapN (List NodeID)) :
    Option (MapN OneHopNeighborEntry) :=
  let cands := two.filter fun p => decide (neighborStateOf one p.1 ≠ .Unidirectional)
  let nodes := sortAsc (cands.map Prod.fst)
  let remaining := cands.foldl (fun s p => p.2.foldl setInsert s) []
  match greedyMPRs two nodes remaining [] with
  | none => none
  | some mprs => some (applyMPRs mprs one)

/-- The MS-set update at the end of `handleHello`: remove `src` when it no
longer selects us, insert it when it newly does. -/
def updateMSSet (msSet : List NodeID) (src : NodeID) (isMS : Bool) : List NodeID :=
  if src ∈ msSet then
    if isMS then msSet else msSet.filter fun x => decide (x ≠ src)
  else
    if isMS then msSet ++ [src] else msSet

/-- `Node.handleHello` from the node source file. -/
def handleHello (n : Node) (msg : HelloMessage) : Option Node :=
  let one := updateOneHopNeighbors msg n.oneHopNeighbors (n.currentTime + n.neighborHoldTime) n.id
  let two := updateTwoHopNeighbors msg n.twoHopNeighbors n.id
  match calculateMPRs one two with
  | none => none
  | some one₁ =>
    some { n with
      oneHopNeighbors := one₁
    , twoHopNeighbors := two
    , msSet := updateMSSet n.msSet msg.src (decide (n.id ∈ msg.mpr)) }

/-! ### TC reception and emission -/

/-- The body of the `for _, dst := range msg.ms` loop of
`updateTopologyTable`: create the destination map, insert a first entry for
this MPR, refresh the hold when the sequence number is newer, or ignore. -/
def topoStep (msg : TCMessage) (holdUntil : Nat) (tt : MapN (MapN TopologyEntry))
    (dst : NodeID) : MapN (MapN TopologyEntry) :=
  match mapFind dst tt with
  | none =>
    mapInsert dst
      [(msg.src, { dst := dst, dstMPR := msg.src, msSeqNum := msg.seq, holdUntil := holdUntil })]
      tt
  | some entries =>
    match mapFind msg.src entries with
    | none =>
      mapInsert dst
        (mapInsert msg.src
          { dst := dst, dstMPR := msg.src, msSeqNum := msg.seq, holdUntil := holdUntil }
          entries)
        tt
    | some entry =>
      if entry.msSeqNum < msg.seq then
        mapInsert dst (mapInsert msg.src { entry with holdUntil := holdUntil } entries) tt
      else tt

/-- `updateTopologyTable` from the node source file: a left fold of the
per-destination step over `msg.ms`. -/
def updateTopologyTable (msg : TCMessage) (topologyTable : MapN (MapN TopologyEntry))
    (holdUntil : Nat) : MapN (MapN TopologyEntry) :=
  msg.ms.foldl (topoStep msg holdUntil) topologyTable

/-- `Node.handleTC` from the node source file: drop own TCs silently,
otherwise update the topology table, rewrite `fromnbr` and re-emit. -/
def handleTC (n : Node) (msg : TCMessage) : Node × List Message :=
  if msg.src = n.id then (n, [])
  else
    ({ n with
        topologyTable :=
          updateTopologyTable msg n.topologyTable (n.currentTime + n.topologyHoldTime) },
     [Message.tc { msg with fromnbr := n.id }])

/-- `Node.handleData`: prints and changes nothing. -/
def handleData (n : Node) (_msg : DataMessage) : Node × List Message := (n, [])

/-- `Node.handler`: dispatch by message kind.  The panic default of the Go
type switch is unreachable: `Message` has exactly the three kinds. -/
def handler (n : Node) (msg : Message) : Option (Node × List Message) :=
  match msg with
  | .hello m =>
    match handleHello n m with
    | none => none
    | some n₁ => some (n₁, [])
  | .data m => some (handleData n m)
  | .tc m => some (handleTC n m)

/-- `Node.sendHello`: partition the one-hop entries by state into the three
announcement lists (the `neighborID` field is what the source appends). -/
def sendHello (n : Node) : HelloMessage :=
  { src := n.id
  , unidir :=
      (n.oneHopNeighbors.filter fun p => decide (p.2.state = .Unidirectional)).map
        fun p => p.2.neighborID
  , bidir :=
      (n.oneHopNeighbors.filter fun p => decide (p.2.state = .Bidirectional)).map
        fun p => p.2.neighborID
  , mpr :=
      (n.oneHopNeighbors.filter fun p => decide (p.2.state = .MPR)).map
        fun p => p.2.neighborID }

/-- `Node.sendTC`: emit the MS set under the current sequence number, then
increment the counter. -/
def sendTC (n : Node) : Node × TCMessage :=
  ({ n with tcSequenceNum := n.tcSequenceNum + 1 },
   { src := n.id, fromnbr := n.id, seq := n.tcSequenceNum, ms := n.msSet })

/-! ### The tick loop -/

/-- The eviction sweep of `Node.run`: expired one-hop entries are removed
together with the two-hop set stored under the same key, and expired
topology entries are removed at the inner-map level. -/
def evictExpired (n : Node) : Node :=
  let now := n.currentTime
  let expired :=
    (n.oneHopNeighbors.filter fun p => decide (p.2.holdUntil ≤ now)).map Prod.fst
  { n with
    oneHopNeighbors := n.oneHopNeighbors.filter fun p => decide (¬ p.2.holdUntil ≤ now)
  , twoHopNeighbors := n.twoHopNeighbors.filter fun p => decide (p.1 ∉ expired)
  , topologyTable :=
      n.topologyTable.map fun p => (p.1, p.2.filter fun q => decide (¬ q.2.holdUntil ≤ now)) }

/-- The part of one `Node.run` iteration after message dispatch: periodic
HELLO and TC emission, the eviction sweep (the routing-table recomputation
is a stub and the data-message branch has an empty body), then the clock
increment. -/
def tickRest (n₁ : Node) (out₁ : List Message) : Node × List Message :=
  let helloOut := if n₁.currentTime % 5 = 0 then [Message.hello (sendHello n₁)] else []
  let (n₂, tcOut) :=
    if n₁.currentTime % 10 = 0 then
      let p := sendTC n₁
      (p.1, [Message.tc p.2])
    else (n₁, [])
  let n₃ := evictExpired n₂
  ({ n₃ with currentTime := n₃.currentTime + 1 }, out₁ ++ (helloOut ++ tcOut))

/-- One iteration of the `Node.run` tick loop: dispatch at most one pending
incoming message, then emissions, eviction and the clock increment. -/
def tick (n : Node) (incoming : Option Message) : Option (Node × List Message) :=
  match incoming with
  | none => some (tickRest n [])
  | some msg =>
    match handler n msg with
    | none => none
    | some (n₁, out₁) => some (tickRest n₁ out₁)

/-- Run the tick loop over a list of per-tick optional incoming messages,
collecting every emitted message in order. -/
def runLoop : Node → List (Option Message) → Option (Node × List Message)
  | n, [] => some (n, [])
  | n, incoming :: rest =>
    match tick n incoming with
    | none => none
    | some (n₁, out) =>
      match runLoop n₁ rest with
      | none => none
      | some (nf, outs) => some (nf, out ++ outs)

/-- `Node.run` from a fresh node: the loop first zeroes `currentTime`. -/
def runNode (id : NodeID) (inputs : List (Option Message)) : Option (Node × List Message) :=
  runLoop { NewNode id with currentTime := 0 } inputs

/-! ### Claim-support definitions -/

/-- Indexing the two-level topology table at destination `d` and MPR `s`. -/
def topoFind (tt : MapN (MapN TopologyEntry)) (d s : NodeID) : Option TopologyEntry :=
  match mapFind d tt with
  | none => none
  | some entries => mapFind s entries

/-- The hold discipline the spec asserts after every tick: every one-hop
entry and every topology entry is held strictly beyond the current time. -/
def holdDiscipline (n : Node) : Prop :=
  (∀ p ∈ n.oneHopNeighbors, p.2.holdUntil > n.currentTime) ∧
  (∀ q ∈ n.topologyTable, ∀ r ∈ q.2, r.2.holdUntil > n.currentTime)

instance (n : Node) : Decidable (holdDiscipline n) := by
  unfold holdDiscipline
  infer_instance

/-- Key inclusion of the two tables: every two-hop key is a one-hop key. -/
def twoKeysSubOneKeys (n : Node) : Prop :=
  ∀ k, k ∈ mapKeys n.twoHopNeighbors → k ∈ mapKeys n.oneHopNeighbors

/-- The sequence numbers of all emitted TC messages, in emission order. -/
def allTCSeqs (msgs : List Message) : List Nat :=
  msgs.filterMap fun m =>
    match m with
    | .tc t => some t.seq
    | _ => none

/-- The sequence numbers of the emitted TC messages originated by node
`id`, in emission order. -/
def ownTCSeqs (id : NodeID) (msgs : List Message) : List Nat :=
  msgs.filterMap fun m =>
    match m with
    | .tc t => if t.src = id then some t.seq else none
    | _ => none

/-- Input schedule refuting the strict hold discipline: one HELLO from node
1 at tick 0, then 14 silent ticks. -/
def c1Inputs : List (Option Message) :=
  some (.hello { src := 1, unidir := [], bidir := [], mpr := [] }) :: List.replicate 14 none

/-- The node state after running `c1Inputs` from a fresh node 0. -/
def c1State : Node := ((runNode 0 c1Inputs).getD (NewNode 0, [])).1

/-- One-hop table for the C2 counterexample: node 3 alone, bidirectional. -/
def c2one : MapN OneHopNeighborEntry :=
  [(3, { neighborID := 3, state := .Bidirectional, holdUntil := 100 })]

/-- Two-hop table for the C2 counterexample: key 2 has no one-hop entry
(the source reads its state as the zero value, `Bidirectional`), yet both
keys announce node 7. -/
def c2two : MapN (List NodeID) := [(2, [7]), (3, [7])]

/-- HELLO message for the C3 counterexample: the receiver (node 0) appears
in the bidir list of a previously unknown sender. -/
def c3msg : HelloMessage := { src := 1, unidir := [], bidir := [0], mpr := [] }

/-- One-hop table for the C2 witness. -/
def c2wone : MapN OneHopNeighborEntry :=
  [(1, { neighborID := 1, state := .Bidirectional, holdUntil := 20 })]

/-- Two-hop table for the C2 witness: neighbor 1 announces node 3. -/
def c2wtwo : MapN (List NodeID) := [(1, [3])]

/-- HELLO message used by the C6 witness. -/
def c6msg : HelloMessage := { src := 1, unidir := [2], bidir := [0, 3], mpr := [9] }

/-- The node state after `c6msg` is handled by a fresh node 0. -/
def c6res : Node := (handleHello (NewNode 0) c6msg).getD (NewNode 0)

/-- The state after `c6res` (which already knows neighbor 1) handles
`c6msg` again, used by the C3 witness. -/
def c3wn : Node := (handleHello c6res c6msg).getD (NewNode 0)

/-- Input schedule for the C8 counterexample: a foreign TC with sequence
number 99 arrives at tick 0, before the node's own first TC (sequence 0)
goes out in the same tick. -/
def c8Inputs : List (Option Message) :=
  [some (.tc { src := 5, fromnbr := 5, seq := 99, ms := [] })]

/-- The node after a fresh node 0 handles `c6msg`, used by the C9 witness. -/
def c9hello : Node := (handleHello (NewNode 0) c6msg).getD (NewNode 0)

/-- The tick result of a silent tick from a fresh node 0, for the C9 witness. -/
def c9tick : Node × List Message := (tick (NewNode 0) none).getD (NewNode 0, [])

/-- The run result on `c8Inputs` from a fresh node 0. -/
def c8run : Node × List Message := (runNode 0 c8Inputs).getD (NewNode 0, [])

/-- A node used by the C4 witness, mirroring the spec's TC-dedup scenario:
a stored entry for destination 9 via MPR 5 with sequence number 7. -/
def c4Node : Node :=
  { NewNode 0 with
      topologyTable := [(9, [(5, { dst := 9, dstMPR := 5, msSeqNum := 7, holdUntil := 150 })])]
    , currentTime := 130
    , topologyHoldTime := 50 }

/-- A small node state used by witnesses: node 0 at time 2 with one
unidirectional neighbor whose hold expires at tick 3. -/
def witNode : Node :=
  { NewNode 0 with
      oneHopNeighbors := [(1, { neighborID := 1, state := .Unidirectional, holdUntil := 3 })]
    , currentTime := 2 }

/-- The tick result after one silent tick from `witNode`. -/
def witTick : Node × List Message := (tick witNode none).getD (witNode, [])

/-! ### Basic map lemmas -/

theorem mapFind_mapInsert_self {α : Type} (k : NodeID) (v : α) (m : MapN α) :
    mapFind k (mapInsert k v m) = some v := by
  induction m with
  | nil => simp [mapInsert, mapFind]
  | cons p rest ih =>
    by_cases h : p.1 = k
    · simp [mapInsert, h, mapFind]
    · simp [mapInsert, h, mapFind, ih]

theorem mapFind_mapInsert_ne {α : Type} {k k' : NodeID} (v : α) (m : MapN α)
    (h : k' ≠ k) : mapFind k' (mapInsert k v m) = mapFind k' m := by
  have hk : ¬ k = k' := fun hh => h hh.symm
  induction m with
  | nil => simp [mapInsert, mapFind, hk]
  | cons p rest ih =>
    by_cases hp : p.1 = k
    · subst hp
      simp [mapInsert, mapFind, hk]
    · by_cases hp' : p.1 = k'
      · simp [mapInsert, hp, mapFind, hp', h]
      · simp [mapInsert, hp, mapFind, hp', ih]

theorem mapInsert_find_self {α : Type} {k : NodeID} {v : α} {m : MapN α}
    (h : mapFind k m = some v) : mapInsert k v m = m := by
  induction m with
  | nil => simp [mapFind] at h
  | cons p rest ih =>
    by_cases hp : p.1 = k
    · simp [mapFind, hp] at h
      obtain ⟨k₁, v₁⟩ := p
      simp only at hp
      subst hp
      subst h
      simp [mapInsert]
    · simp [mapFind, hp] at h
      simp [mapInsert, hp, ih h]

theorem mapInsert_mapInsert {α : Type} (k : NodeID) (v w : α) (m : MapN α) :
    mapInsert k v (mapInsert k w m) = mapInsert k v m := by
  induction m with
  | nil => simp [mapInsert]
  | cons p rest ih =>
    by_cases hp : p.1 = k
    · simp [mapInsert, hp]
    · simp [mapInsert, hp, ih]

theorem mapFind_some_mem {α : Type} {k : NodeID} {v : α} {m : MapN α}
    (h : mapFind k m = some v) : (k, v) ∈ m := by
  induction m with
  | nil => simp [mapFind] at h
  | cons p rest ih =>
    by_cases hp : p.1 = k
    · simp [mapFind, hp] at h
      obtain ⟨k₁, v₁⟩ := p
      simp only at hp
      subst hp
      subst h
      exact List.mem_cons_self _ _
    · simp [mapFind, hp] at h
      exact List.mem_cons_of_mem _ (ih h)

theorem mapFind_some_mem_keys {α : Type} {k : NodeID} {v : α} {m : MapN α}
    (h : mapFind k m = some v) : k ∈ mapKeys m := by
  have := mapFind_some_mem h
  exact List.mem_map_of_mem Prod.fst this

theorem mem_keys_mapFind_isSome {α : Type} {k : NodeID} {m : MapN α}
    (h : k ∈ mapKeys m) : (mapFind k m).isSome := by
  induction m with
  | nil => simp [mapKeys] at h
  | cons p rest ih =>
    by_cases hp : p.1 = k
    · simp [mapFind, hp]
    · have hm : k ∈ mapKeys rest := by
        simp [mapKeys] at h ⊢
        rcases h with h | h
        · exact absurd h.symm hp
        · exact h
      simpa [mapFind, hp] using ih hm

theorem mem_keys_mapInsert {α : Type} {a k : NodeID} {v : α} {m : MapN α} :
    a ∈ mapKeys (mapInsert k v m) ↔ a ∈ mapKeys m ∨ a = k := by
  induction m with
  | nil => simp [mapInsert, mapKeys]
  | cons p rest ih =>
    by_cases hp : p.1 = k
    · subst hp
      simp [mapInsert, mapKeys]
      tauto
    · simp [mapInsert, hp, mapKeys] at ih ⊢
      tauto

theorem mem_setInsert {a x : NodeID} {s : List NodeID} :
    a ∈ setInsert s x ↔ a ∈ s ∨ a = x := by
  by_cases h : x ∈ s
  · constructor
    · intro ha
      exact Or.inl (by simpa [setInsert, h] using ha)
    · intro ha
      rcases ha with ha | ha
      · simpa [setInsert, h] using ha
      · subst ha
        simp [setInsert, h]
  · simp [setInsert, h, or_comm]

/-- Looking up a key after a key-preserving `List.map` over the bindings. -/
theorem mapFind_map {α β : Type} (f : NodeID → α → β) (k : NodeID) (m : MapN α) :
    mapFind k (m.map fun p => (p.1, f p.1 p.2)) = (mapFind k m).map (f k) := by
  induction m with
  | nil => simp [mapFind]
  | cons p rest ih =>
    by_cases hp : p.1 = k
    · subst hp
      simp [mapFind]
    · simp [mapFind, hp, ih]

theorem mapKeys_map {α β : Type} (f : NodeID → α → β) (m : MapN α) :
    mapKeys (m.map fun p => (p.1, f p.1 p.2)) = mapKeys m := by
  induction m with
  | nil => rfl
  | cons p rest ih =>
    simp only [List.map_cons, mapKeys] at ih ⊢
    rw [ih]

/-- Membership after folding `setInsert` over a list, skipping `id`. -/
theorem mem_foldl_skipInsert (id : NodeID) (l : List NodeID) (acc : List NodeID) (x : NodeID) :
    x ∈ l.foldl (fun s y => if y = id then s else setInsert s y) acc ↔
      x ∈ acc ∨ (x ∈ l ∧ x ≠ id) := by
  induction l generalizing acc with
  | nil => simp
  | cons y ys ih =>
    by_cases hy : y = id
    · subst hy
      simp only [List.foldl_cons, if_pos rfl]
      rw [ih]
      constructor
      · rintro (h | ⟨h, hne⟩)
        · exact Or.inl h
        · exact Or.inr ⟨List.mem_cons_of_mem _ h, hne⟩
      · rintro (h | ⟨h, hne⟩)
        · exact Or.inl h
        · rcases List.mem_cons.1 h with rfl | h
          · exact absurd rfl hne
          · exact Or.inr ⟨h, hne⟩
    · simp only [List.foldl_cons, if_neg hy]
      rw [ih]
      constructor
      · rintro (h | ⟨h, hne⟩)
        · rcases mem_setInsert.1 h with h | rfl
          · exact Or.inl h
          · exact Or.inr ⟨List.mem_cons_self _ _, hy⟩
        · exact Or.inr ⟨List.mem_cons_of_mem _ h, hne⟩
      · rintro (h | ⟨h, hne⟩)
        · exact Or.inl (mem_setInsert.2 (Or.inl h))
        · rcases List.mem_cons.1 h with rfl | h
          · exact Or.inl (mem_setInsert.2 (Or.inr rfl))
          · exact Or.inr ⟨h, hne⟩

/-- Inversion of a successful `handleHello`. -/
theorem handleHello_some {n : Node} {msg : HelloMessage} {n' : Node}
    (h : handleHello n msg = some n') :
    ∃ one₁,
      calculateMPRs
          (updateOneHopNeighbors msg n.oneHopNeighbors (n.currentTime + n.neighborHoldTime) n.id)
          (updateTwoHopNeighbors msg n.twoHopNeighbors n.id) = some one₁ ∧
        n' = { n with
          oneHopNeighbors := one₁
        , twoHopNeighbors := updateTwoHopNeighbors msg n.twoHopNeighbors n.id
        , msSet := updateMSSet n.msSet msg.src (decide (n.id ∈ msg.mpr)) } := by
  unfold handleHello at h
  cases hc :
      calculateMPRs
        (updateOneHopNeighbors msg n.oneHopNeighbors (n.currentTime + n.neighborHoldTime) n.id)
        (updateTwoHopNeighbors msg n.twoHopNeighbors n.id) with
  | none =>
    simp only [hc] at h
    exact absurd h (by simp)
  | some one₁ =>
    simp only [hc, Option.some.injEq] at h
    exact ⟨one₁, rfl, h.symm⟩

/-! ### Helper lemmas about `handleTC` -/

theorem handleTC_own (n : Node) (msg : TCMessage) (h : msg.src = n.id) :
    handleTC n msg = (n, []) := by
  simp [handleTC, h]

theorem handleTC_other (n : Node) (msg : TCMessage) (h : msg.src ≠ n.id) :
    handleTC n msg =
      ({ n with
          topologyTable :=
            updateTopologyTable msg n.topologyTable (n.currentTime + n.topologyHoldTime) },
       [Message.tc { msg with fromnbr := n.id }]) := by
  simp [handleTC, h]

/-! ### Helper lemmas about the topology-table fold -/

/-- `{ e with holdUntil := h }` is `e` itself when the hold already is `h`. -/
theorem topologyEntry_hold_eta {e : TopologyEntry} {h : Nat} (hh : e.holdUntil = h) :
    { e with holdUntil := h } = e := by
  cases e
  simp only at hh
  rw [hh]

/-- A topology step at destination `dst` leaves every other destination alone. -/
theorem topoStep_find_ne (msg : TCMessage) (h : Nat) (tt : MapN (MapN TopologyEntry))
    (dst d s : NodeID) (hne : d ≠ dst) :
    topoFind (topoStep msg h tt dst) d s = topoFind tt d s := by
  cases h1 : mapFind dst tt with
  | none => simp only [topoStep, topoFind, h1, mapFind_mapInsert_ne _ _ hne]
  | some entries =>
    cases h2 : mapFind msg.src entries with
    | none => simp only [topoStep, topoFind, h1, h2, mapFind_mapInsert_ne _ _ hne]
    | some entry =>
      by_cases h3 : entry.msSeqNum < msg.seq
      · simp only [topoStep, topoFind, h1, h2, if_pos h3, mapFind_mapInsert_ne _ _ hne]
      · simp only [topoStep, topoFind, h1, h2, if_neg h3]

/-- Whatever a topology step stores was either already there or carries the
hold value passed in. -/
theorem topoStep_find_backward (msg : TCMessage) (h : Nat) (tt : MapN (MapN TopologyEntry))
    (dst d s : NodeID) (e : TopologyEntry)
    (hfind : topoFind (topoStep msg h tt dst) d s = some e) :
    topoFind tt d s = some e ∨ e.holdUntil = h := by
  by_cases hd : d = dst
  · subst hd
    cases h1 : mapFind d tt with
    | none =>
      simp only [topoStep, topoFind, h1, mapFind_mapInsert_self] at hfind
      by_cases hs : msg.src = s
      · simp only [mapFind, if_pos hs] at hfind
        exact Or.inr (by rw [← Option.some_inj.1 hfind])
      · simp only [mapFind, if_neg hs] at hfind
        exact absurd hfind (by simp)
    | some entries =>
      cases h2 : mapFind msg.src entries with
      | none =>
        simp only [topoStep, topoFind, h1, h2, mapFind_mapInsert_self] at hfind
        by_cases hs : s = msg.src
        · subst hs
          rw [mapFind_mapInsert_self] at hfind
          exact Or.inr (by rw [← Option.some_inj.1 hfind])
        · rw [mapFind_mapInsert_ne _ _ hs] at hfind
          exact Or.inl (by simp [topoFind, h1, hfind])
      | some entry =>
        by_cases h3 : entry.msSeqNum < msg.seq
        · simp only [topoStep, topoFind, h1, h2, if_pos h3, mapFind_mapInsert_self] at hfind
          by_cases hs : s = msg.src
          · subst hs
            rw [mapFind_mapInsert_self] at hfind
            exact Or.inr (by rw [← Option.some_inj.1 hfind])
          · rw [mapFind_mapInsert_ne _ _ hs] at hfind
            exact Or.inl (by simp [topoFind, h1, hfind])
        · simp only [topoStep, h1, h2, if_neg h3] at hfind
          exact Or.inl hfind
  · rw [topoStep_find_ne msg h tt dst d s hd] at hfind
    exact Or.inl hfind

/-- The effect of the topology step on the pair it processes. -/
theorem topoStep_find_diag (msg : TCMessage) (h : Nat) (tt : MapN (MapN TopologyEntry))
    (dst : NodeID) (e₀ : TopologyEntry)
    (hfind : topoFind tt dst msg.src = some e₀) :
    topoFind (topoStep msg h tt dst) dst msg.src =
      if e₀.msSeqNum < msg.seq then some { e₀ with holdUntil := h } else some e₀ := by
  cases h1 : mapFind dst tt with
  | none =>
    simp only [topoFind, h1] at hfind
    exact absurd hfind (by simp)
  | some entries =>
    simp only [topoFind, h1] at hfind
    by_cases h3 : e₀.msSeqNum < msg.seq
    · simp only [topoStep, topoFind, h1, hfind, if_pos h3, mapFind_mapInsert_self]
    · simp only [topoStep, topoFind, h1, hfind, if_neg h3]

/-- A stored entry whose sequence number is not older than the TC's is left
untouched by the whole fold. -/
theorem foldl_topoStep_stale (msg : TCMessage) (h : Nat) (d : NodeID) (e : TopologyEntry)
    (hq : ¬ e.msSeqNum < msg.seq) (ms : List NodeID) :
    ∀ tt, topoFind tt d msg.src = some e →
      topoFind (ms.foldl (topoStep msg h) tt) d msg.src = some e := by
  induction ms with
  | nil => intro tt htt; simpa using htt
  | cons dst rest ih =>
    intro tt htt
    simp only [List.foldl_cons]
    apply ih
    by_cases hd : d = dst
    · subst hd
      rw [topoStep_find_diag msg h tt d e htt, if_neg hq]
    · rw [topoStep_find_ne msg h tt dst d msg.src hd]
      exact htt

/-- An already-refreshed entry (hold equal to the fold's hold value, older
sequence number) is a fixed point of the fold. -/
theorem foldl_topoStep_keepRefreshed (msg : TCMessage) (h : Nat) (d : NodeID)
    (e : TopologyEntry) (hq : e.msSeqNum < msg.seq) (hh : e.holdUntil = h)
    (ms : List NodeID) :
    ∀ tt, topoFind tt d msg.src = some e →
      topoFind (ms.foldl (topoStep msg h) tt) d msg.src = some e := by
  induction ms with
  | nil => intro tt htt; simpa using htt
  | cons dst rest ih =>
    intro tt htt
    simp only [List.foldl_cons]
    apply ih
    by_cases hd : d = dst
    · subst hd
      rw [topoStep_find_diag msg h tt d e htt, if_pos hq, topologyEntry_hold_eta hh]
    · rw [topoStep_find_ne msg h tt dst d msg.src hd]
      exact htt

/-- A stored entry with an older sequence number has exactly its hold
refreshed by the fold whenever its destination occurs in the MS list. -/
theorem foldl_topoStep_refresh (msg : TCMessage) (h : Nat) (d : NodeID) (e : TopologyEntry)
    (hq : e.msSeqNum < msg.seq) (ms : List NodeID) :
    ∀ tt, topoFind tt d msg.src = some e → d ∈ ms →
      topoFind (ms.foldl (topoStep msg h) tt) d msg.src = some { e with holdUntil := h } := by
  induction ms with
  | nil => intro tt _ hd; simp at hd
  | cons dst rest ih =>
    intro tt htt hd
    simp only [List.foldl_cons]
    by_cases hdd : d = dst
    · subst hdd
      have hstep : topoFind (topoStep msg h tt d) d msg.src = some { e with holdUntil := h } := by
        rw [topoStep_find_diag msg h tt d e htt, if_pos hq]
      exact foldl_topoStep_keepRefreshed msg h d { e with holdUntil := h } hq rfl rest _ hstep
    · have hstep : topoFind (topoStep msg h tt dst) d msg.src = some e := by
        rw [topoStep_find_ne msg h tt dst d msg.src hdd]
        exact htt
      have hd' : d ∈ rest := by
        rcases List.mem_cons.1 hd with h | h
        · exact absurd h hdd
        · exact h
      exact ih _ hstep hd'

/-- Every entry of the folded table was already present or carries the
fold's hold value. -/
theorem foldl_topoStep_backward (msg : TCMessage) (h : Nat) (d s : NodeID) (e : TopologyEntry)
    (ms : List NodeID) :
    ∀ tt, topoFind (ms.foldl (topoStep msg h) tt) d s = some e →
      topoFind tt d s = some e ∨ e.holdUntil = h := by
  induction ms with
  | nil => intro tt htt; exact Or.inl (by simpa using htt)
  | cons dst rest ih =>
    intro tt htt
    simp only [List.foldl_cons] at htt
    rcases ih _ htt with h1 | h1
    · exact topoStep_find_backward msg h tt dst d s e h1
    · exact Or.inr h1

/-! ### Helper lemmas about the eviction sweep and the tick -/

/-- After the sweep, every surviving entry of both tables is held strictly
beyond the sweep time. -/
theorem evictExpired_hold (n : Node) :
    (∀ p ∈ (evictExpired n).oneHopNeighbors, n.currentTime < p.2.holdUntil) ∧
    (∀ q ∈ (evictExpired n).topologyTable, ∀ r ∈ q.2, n.currentTime < r.2.holdUntil) := by
  constructor
  · intro p hp
    have hf := (List.mem_filter.1 hp).2
    simp only [decide_eq_true_eq] at hf
    exact Nat.lt_of_not_le fun hle => hf hle
  · intro q hq r hr
    obtain ⟨p, _, rfl⟩ := List.mem_map.1 hq
    have hf := (List.mem_filter.1 hr).2
    simp only [decide_eq_true_eq] at hf
    exact Nat.lt_of_not_le fun hle => hf hle

/-- The post-tick state of `tickRest`: sweep of the (possibly
TC-incremented) node, clock advanced by one. -/
theorem tickRest_fst (n₁ : Node) (out₁ : List Message) :
    (tickRest n₁ out₁).1 =
      { evictExpired (if n₁.currentTime % 10 = 0 then (sendTC n₁).1 else n₁) with
          currentTime := n₁.currentTime + 1 } := by
  by_cases h10 : n₁.currentTime % 10 = 0
  · simp only [tickRest, if_pos h10]
    rfl
  · simp only [tickRest, if_neg h10]
    rfl

/-- Hold bound for the `tickRest` result. -/
theorem tickRest_hold (n₁ : Node) (out₁ : List Message) :
    (∀ p ∈ (tickRest n₁ out₁).1.oneHopNeighbors,
        (tickRest n₁ out₁).1.currentTime ≤ p.2.holdUntil) ∧
    (∀ q ∈ (tickRest n₁ out₁).1.topologyTable, ∀ r ∈ q.2,
        (tickRest n₁ out₁).1.currentTime ≤ r.2.holdUntil) := by
  rw [tickRest_fst n₁ out₁]
  by_cases h10 : n₁.currentTime % 10 = 0
  · rw [if_pos h10]
    have h := evictExpired_hold (sendTC n₁).1
    exact ⟨fun p hp => h.1 p hp, fun q hq r hr => h.2 q hq r hr⟩
  · rw [if_neg h10]
    have h := evictExpired_hold n₁
    exact ⟨fun p hp => h.1 p hp, fun q hq r hr => h.2 q hq r hr⟩

/-! ### Helper lemmas for the key-inclusion invariant -/

/-- Keys of the one-hop table after a HELLO: the old keys plus the source. -/
theorem mem_keys_updateOneHop (msg : HelloMessage) (one : MapN OneHopNeighborEntry)
    (h : Nat) (id k : NodeID) :
    k ∈ mapKeys (updateOneHopNeighbors msg one h id) ↔ k ∈ mapKeys one ∨ k = msg.src := by
  unfold updateOneHopNeighbors
  cases hf : mapFind msg.src one with
  | none => exact mem_keys_mapInsert
  | some entry => exact mem_keys_mapInsert

/-- A successful `calculateMPRs` only rewrites states: the key list of the
one-hop table is unchanged. -/
theorem calculateMPRs_keys (one : MapN OneHopNeighborEntry) (two : MapN (List NodeID))
    (one₁ : MapN OneHopNeighborEntry) (hc : calculateMPRs one two = some one₁) :
    mapKeys one₁ = mapKeys one := by
  unfold calculateMPRs at hc
  cases hg :
      greedyMPRs two
        (sortAsc
          ((two.filter fun p => decide (neighborStateOf one p.1 ≠ .Unidirectional)).map Prod.fst))
        ((two.filter fun p => decide (neighborStateOf one p.1 ≠ .Unidirectional)).foldl
          (fun s p => p.2.foldl setInsert s) [])
        [] with
  | none =>
    simp only [hg] at hc
    exact absurd hc (by simp)
  | some mprs =>
    simp only [hg, Option.some.injEq] at hc
    rw [← hc]
    exact mapKeys_map _ one

/-- `handleHello` preserves the key inclusion of the two tables. -/
theorem handleHello_keysSub (n n' : Node) (msg : HelloMessage)
    (h : handleHello n msg = some n') (hinv : twoKeysSubOneKeys n) :
    twoKeysSubOneKeys n' := by
  obtain ⟨one₁, hc, rfl⟩ := handleHello_some h
  intro k hk
  show k ∈ mapKeys one₁
  rw [calculateMPRs_keys _ _ _ hc, mem_keys_updateOneHop]
  have hk' : k ∈ mapKeys n.twoHopNeighbors ∨ k = msg.src := mem_keys_mapInsert.1 hk
  rcases hk' with hk' | hk'
  · exact Or.inl (hinv k hk')
  · exact Or.inr hk'

/-- The eviction sweep preserves the key inclusion: a surviving two-hop key
is not among the expired one-hop keys, so its one-hop entry survives too. -/
theorem evictExpired_keysSub (n : Node) (hinv : twoKeysSubOneKeys n) :
    twoKeysSubOneKeys (evictExpired n) := by
  intro k hk
  obtain ⟨p, hp, rfl⟩ := List.mem_map.1 hk
  have hpf := List.mem_filter.1 hp
  have hnotexp : p.1 ∉
      ((n.oneHopNeighbors.filter fun q => decide (q.2.holdUntil ≤ n.currentTime)).map
        Prod.fst) := by
    simpa using hpf.2
  have hone : p.1 ∈ mapKeys n.oneHopNeighbors :=
    hinv p.1 (List.mem_map_of_mem Prod.fst hpf.1)
  obtain ⟨q, hq, hqk⟩ := List.mem_map.1 hone
  have hqs : ¬ q.2.holdUntil ≤ n.currentTime := by
    intro hle
    exact hnotexp (hqk ▸ List.mem_map_of_mem Prod.fst
      (List.mem_filter.2 ⟨hq, by simpa using hle⟩))
  exact hqk ▸ List.mem_map_of_mem Prod.fst
    (List.mem_filter.2 ⟨hq, by simpa using hqs⟩)

/-- `tickRest` preserves the key inclusion. -/
theorem tickRest_keysSub (n₁ : Node) (out₁ : List Message) (hinv : twoKeysSubOneKeys n₁) :
    twoKeysSubOneKeys (tickRest n₁ out₁).1 := by
  rw [tickRest_fst n₁ out₁]
  by_cases h10 : n₁.currentTime % 10 = 0
  · rw [if_pos h10]
    exact evictExpired_keysSub _ hinv
  · rw [if_neg h10]
    exact evictExpired_keysSub _ hinv

/-- Message dispatch preserves the key inclusion. -/
theorem handler_keysSub (n : Node) (msg : Message) (n₁ : Node) (out₁ : List Message)
    (h : handler n msg = some (n₁, out₁)) (hinv : twoKeysSubOneKeys n) :
    twoKeysSubOneKeys n₁ := by
  cases msg with
  | hello m =>
    cases hh : handleHello n m with
    | none => simp only [handler, hh] at h; exact absurd h (by simp)
    | some n' =>
      simp only [handler, hh, Option.some.injEq, Prod.mk.injEq] at h
      exact h.1 ▸ handleHello_keysSub n n' m hh hinv
  | data m =>
    simp only [handler, handleData, Option.some.injEq, Prod.mk.injEq] at h
    exact h.1 ▸ hinv
  | tc m =>
    simp only [handler, Option.some.injEq] at h
    by_cases hsrc : m.src = n.id
    · rw [handleTC_own n m hsrc] at h
      cases h
      exact hinv
    · rw [handleTC_other n m hsrc] at h
      cases h
      exact hinv

/-! ### Helper lemmas about the greedy MPR selection -/

/-- Membership in an ascending insertion. -/
theorem mem_insertAsc (a x : NodeID) (l : List NodeID) :
    a ∈ insertAsc x l ↔ a = x ∨ a ∈ l := by
  induction l with
  | nil => simp [insertAsc]
  | cons y ys ih =>
    by_cases h : x ≤ y
    · simp [insertAsc, h]
    · simp only [insertAsc, if_neg h, List.mem_cons, ih]
      tauto

/-- Sorting does not change membership. -/
theorem mem_sortAsc (a : NodeID) (l : List NodeID) : a ∈ sortAsc l ↔ a ∈ l := by
  induction l with
  | nil => simp [sortAsc]
  | cons y ys ih =>
    show a ∈ insertAsc y (sortAsc ys) ↔ _
    rw [mem_insertAsc, ih]
    simp

/-- Membership after folding `setInsert` over a list. -/
theorem mem_foldl_setInsert (x : NodeID) (l : List NodeID) :
    ∀ s, x ∈ l.foldl setInsert s ↔ x ∈ s ∨ x ∈ l := by
  induction l with
  | nil => simp
  | cons y ys ih =>
    intro s
    simp only [List.foldl_cons, ih, mem_setInsert, List.mem_cons]
    tauto

/-- Membership in the union of the announced two-hop sets of a table. -/
theorem mem_foldl_union (x : NodeID) (cands : List (NodeID × List NodeID)) :
    ∀ acc, x ∈ cands.foldl (fun s p => p.2.foldl setInsert s) acc ↔
      x ∈ acc ∨ ∃ p ∈ cands, x ∈ p.2 := by
  induction cands with
  | nil => simp
  | cons p ps ih =>
    intro acc
    simp only [List.foldl_cons, ih, mem_foldl_setInsert, List.mem_cons]
    constructor
    · rintro ((h | h) | ⟨q, hq, hxq⟩)
      · exact Or.inl h
      · exact Or.inr ⟨p, Or.inl rfl, h⟩
      · exact Or.inr ⟨q, Or.inr hq, hxq⟩
    · rintro (h | ⟨q, hq | hq, hxq⟩)
      · exact Or.inl (Or.inl h)
      · exact Or.inl (Or.inr (hq ▸ hxq))
      · exact Or.inr ⟨q, hq, hxq⟩

/-- The accumulated MPR list only grows during the greedy loop. -/
theorem greedyMPRs_mono (two : MapN (List NodeID)) (nodes : List NodeID) :
    ∀ remaining mprs out, greedyMPRs two nodes remaining mprs = some out →
      ∀ c ∈ mprs, c ∈ out := by
  induction nodes with
  | nil =>
    intro remaining mprs out h c hc
    by_cases he : remaining.isEmpty
    · rw [greedyMPRs, if_pos he] at h
      exact Option.some_inj.1 h ▸ hc
    · rw [greedyMPRs, if_neg he] at h
      exact absurd h (by simp)
  | cons a rest ih =>
    intro remaining mprs out h c hc
    by_cases he : remaining.isEmpty
    · rw [greedyMPRs, if_pos he] at h
      exact Option.some_inj.1 h ▸ hc
    · rw [greedyMPRs, if_neg he] at h
      exact ih _ _ _ h c (List.mem_append_left _ hc)

/-- Every selected MPR comes from the accumulator or the candidate list. -/
theorem greedyMPRs_sub (two : MapN (List NodeID)) (nodes : List NodeID) :
    ∀ remaining mprs out, greedyMPRs two nodes remaining mprs = some out →
      ∀ c ∈ out, c ∈ mprs ∨ c ∈ nodes := by
  induction nodes with
  | nil =>
    intro remaining mprs out h c hc
    by_cases he : remaining.isEmpty
    · rw [greedyMPRs, if_pos he] at h
      exact Or.inl (Option.some_inj.1 h ▸ hc)
    · rw [greedyMPRs, if_neg he] at h
      exact absurd h (by simp)
  | cons a rest ih =>
    intro remaining mprs out h c hc
    by_cases he : remaining.isEmpty
    · rw [greedyMPRs, if_pos he] at h
      exact Or.inl (Option.some_inj.1 h ▸ hc)
    · rw [greedyMPRs, if_neg he] at h
      rcases ih _ _ _ h c hc with hm | hm
      · rcases List.mem_append.1 hm with hm | hm
        · exact Or.inl hm
        · exact Or.inr (List.mem_cons.2 (Or.inl (by simpa using hm)))
      · exact Or.inr (List.mem_cons.2 (Or.inr hm))

/-- When the greedy loop terminates normally, every initially uncovered
two-hop node is covered by some selected MPR. -/
theorem greedyMPRs_covers (two : MapN (List NodeID)) (nodes : List NodeID) :
    ∀ remaining mprs out, greedyMPRs two nodes remaining mprs = some out →
      ∀ x ∈ remaining, ∃ c, c ∈ out ∧ x ∈ twoHopsOf two c := by
  induction nodes with
  | nil =>
    intro remaining mprs out h x hx
    by_cases he : remaining.isEmpty
    · rw [List.isEmpty_iff.1 he] at hx
      exact absurd hx (by simp)
    · rw [greedyMPRs, if_neg he] at h
      exact absurd h (by simp)
  | cons a rest ih =>
    intro remaining mprs out h x hx
    by_cases he : remaining.isEmpty
    · rw [List.isEmpty_iff.1 he] at hx
      exact absurd hx (by simp)
    · rw [greedyMPRs, if_neg he] at h
      by_cases hxa : x ∈ twoHopsOf two a
      · exact ⟨a, greedyMPRs_mono two rest _ _ out h a
          (List.mem_append_right _ (List.mem_singleton.2 rfl)), hxa⟩
      · exact ih _ _ _ h x (List.mem_filter.2 ⟨hx, by simpa using hxa⟩)

/-- Inversion of a successful `calculateMPRs`. -/
theorem calculateMPRs_inv (one : MapN OneHopNeighborEntry) (two : MapN (List NodeID))
    (one₁ : MapN OneHopNeighborEntry) (hc : calculateMPRs one two = some one₁) :
    ∃ mprs,
      greedyMPRs two
          (sortAsc
            ((two.filter fun p => decide (neighborStateOf one p.1 ≠ .Unidirectional)).map
              Prod.fst))
          ((two.filter fun p => decide (neighborStateOf one p.1 ≠ .Unidirectional)).foldl
            (fun s p => p.2.foldl setInsert s) [])
          [] = some mprs ∧
        one₁ = applyMPRs mprs one := by
  unfold calculateMPRs at hc
  cases hg :
      greedyMPRs two
        (sortAsc
          ((two.filter fun p => decide (neighborStateOf one p.1 ≠ .Unidirectional)).map Prod.fst))
        ((two.filter fun p => decide (neighborStateOf one p.1 ≠ .Unidirectional)).foldl
          (fun s p => p.2.foldl setInsert s) [])
        [] with
  | none =>
    simp only [hg] at hc
    exact absurd hc (by simp)
  | some mprs =>
    simp only [hg, Option.some.injEq] at hc
    exact ⟨mprs, rfl, hc.symm⟩

/-! ### Claim C2 -/

/-- C2 (amended): provided every two-hop key has a one-hop entry (which
every reachable node state satisfies, cf. the key-inclusion invariant) and
`calculateMPRs` returns, every two-hop node announced by a one-hop neighbor
whose state is not Unidirectional is covered by a one-hop entry whose
resulting state is MPR.  Without the added key hypothesis the source can
select a phantom candidate that has no one-hop entry, see the
counterexample. -/
theorem calcMPRs_cover (one : MapN OneHopNeighborEntry) (two : MapN (List NodeID))
    (one₁ : MapN OneHopNeighborEntry)
    (hk : ∀ k ∈ mapKeys two, k ∈ mapKeys one)
    (hc : calculateMPRs one two = some one₁)
    (x m₀ : NodeID) (e₀ : OneHopNeighborEntry)
    (hm₀ : mapFind m₀ one = some e₀) (hst : e₀.state ≠ .Unidirectional)
    (hx : x ∈ twoHopsOf two m₀) :
    ∃ m e, mapFind m one₁ = some e ∧ e.state = .MPR ∧ x ∈ twoHopsOf two m := by
  obtain ⟨mprs, hg, rfl⟩ := calculateMPRs_inv one two one₁ hc
  cases hf : mapFind m₀ two with
  | none =>
    rw [twoHopsOf, hf] at hx
    exact absurd hx (by simp)
  | some l =>
    have hxl : x ∈ l := by
      rw [twoHopsOf, hf] at hx
      simpa using hx
    have hcand :
        (m₀, l) ∈ two.filter fun p => decide (neighborStateOf one p.1 ≠ .Unidirectional) :=
      List.mem_filter.2 ⟨mapFind_some_mem hf, by simp [neighborStateOf, hm₀, hst]⟩
    have hrem :
        x ∈ (two.filter fun p => decide (neighborStateOf one p.1 ≠ .Unidirectional)).foldl
          (fun s p => p.2.foldl setInsert s) [] :=
      (mem_foldl_union x _ []).2 (Or.inr ⟨(m₀, l), hcand, hxl⟩)
    obtain ⟨c, hcout, hcx⟩ := greedyMPRs_covers two _ _ _ mprs hg x hrem
    have hcnodes : c ∈ mapKeys one := by
      rcases greedyMPRs_sub two _ _ _ mprs hg c hcout with hm | hm
      · exact absurd hm (by simp)
      · rw [mem_sortAsc] at hm
        obtain ⟨p, hp, rfl⟩ := List.mem_map.1 hm
        exact hk p.1 (List.mem_map_of_mem Prod.fst (List.mem_filter.1 hp).1)
    obtain ⟨ec, hec⟩ := Option.isSome_iff_exists.1 (mem_keys_mapFind_isSome hcnodes)
    refine ⟨c, adjustEntry mprs c ec, ?_, ?_, hcx⟩
    · show mapFind c (applyMPRs mprs one) = _
      rw [applyMPRs, mapFind_map, hec]
      rfl
    · simp [adjustEntry, hcout]

/-- Witness for C2 (amended): with neighbor 1 bidirectional and announcing
node 3, the selection makes 1 an MPR covering 3. -/
theorem calcMPRs_cover_witness :
    ∃ m e,
      mapFind m [(1, ({ neighborID := 1, state := .MPR, holdUntil := 20 } :
        OneHopNeighborEntry))] = some e ∧ e.state = .MPR ∧ 3 ∈ twoHopsOf c2wtwo m :=
  calcMPRs_cover c2wone c2wtwo
    [(1, { neighborID := 1, state := .MPR, holdUntil := 20 })]
    (by decide) rfl 3 1 { neighborID := 1, state := .Bidirectional, holdUntil := 20 }
    rfl (by decide) (by decide)

/-- Counterexample to C2 as stated: with tables `c2one`/`c2two`, node 7 is
announced by the non-Unidirectional one-hop neighbor 3 and is covered by a
candidate in the input, yet after `calculateMPRs` no one-hop entry has
state MPR at all: the greedy loop selected key 2, which has no one-hop
entry (its state reads as the Go zero value, not Unidirectional). -/
theorem calcMPRs_cover_counterexample :
    calculateMPRs c2one c2two = some c2one ∧
    mapFind 3 c2one = some { neighborID := 3, state := .Bidirectional, holdUntil := 100 } ∧
    ({ neighborID := 3, state := .Bidirectional, holdUntil := 100 } :
        OneHopNeighborEntry).state ≠ .Unidirectional ∧
    7 ∈ twoHopsOf c2two 3 ∧
    7 ∈ twoHopsOf c2two 2 ∧
    ¬ ∃ m e, mapFind m c2one = some e ∧ e.state = .MPR ∧ 7 ∈ twoHopsOf c2two m := by
  refine ⟨rfl, rfl, by decide, by decide, by decide, ?_⟩
  rintro ⟨m, e, hf, hs, hx⟩
  have hm := mapFind_some_mem hf
  have : m = 3 ∧ e = { neighborID := 3, state := .Bidirectional, holdUntil := 100 } := by
    simpa [c2one] using hm
  rw [this.2] at hs
  exact absurd hs (by decide)

/-! ### Claim C9 -/

/-- C9: every node-level operation preserves the inclusion of the two-hop
key set in the one-hop key set: `handleHello` inserts the source into both
tables, and the tick's eviction sweep removes an expired one-hop key and
its two-hop set together. -/
theorem node_ops_keysSub (n : Node) (msg : HelloMessage) (incoming : Option Message)
    (hinv : twoKeysSubOneKeys n) :
    (∀ n', handleHello n msg = some n' → twoKeysSubOneKeys n') ∧
    (∀ n' outs, tick n incoming = some (n', outs) → twoKeysSubOneKeys n') := by
  constructor
  · intro n' h
    exact handleHello_keysSub n n' msg h hinv
  · intro n' outs h
    cases incoming with
    | none =>
      simp only [tick] at h
      have := Option.some_inj.1 h
      have h1 := tickRest_keysSub n [] hinv
      rw [this] at h1
      exact h1
    | some m =>
      cases hh : handler n m with
      | none =>
        simp only [tick, hh] at h
        exact absurd h (by simp)
      | some p =>
        simp only [tick, hh] at h
        have := Option.some_inj.1 h
        have h1 := tickRest_keysSub p.1 p.2 (handler_keysSub n m p.1 p.2 hh hinv)
        rw [this] at h1
        exact h1

/-- Witness for C9: the invariant holds on a fresh node and is preserved by
a HELLO and by a silent tick. -/
theorem node_ops_keysSub_witness :
    twoKeysSubOneKeys c9hello ∧ twoKeysSubOneKeys c9tick.1 :=
  have hinv : twoKeysSubOneKeys (NewNode 0) := fun k hk => by simp [mapKeys, NewNode] at hk
  ⟨(node_ops_keysSub (NewNode 0) c6msg none hinv).1 c9hello rfl,
   (node_ops_keysSub (NewNode 0) c6msg none hinv).2 c9tick.1 c9tick.2 rfl⟩

/-! ### Claim C1 -/

/-- C1 (amended): after every tick, every surviving one-hop entry and every
surviving topology entry satisfies `holdUntil ≥ currentTime` (equivalently,
strictly greater than the tick's pre-increment time); the strict bound
`holdUntil > currentTime` of the original claim fails, see the
counterexample. -/
theorem tick_hold_ge (n n' : Node) (incoming : Option Message) (outs : List Message)
    (h : tick n incoming = some (n', outs)) :
    (∀ p ∈ n'.oneHopNeighbors, n'.currentTime ≤ p.2.holdUntil) ∧
    (∀ q ∈ n'.topologyTable, ∀ r ∈ q.2, n'.currentTime ≤ r.2.holdUntil) := by
  have key : ∀ n₁ out₁, tickRest n₁ out₁ = (n', outs) →
      (∀ p ∈ n'.oneHopNeighbors, n'.currentTime ≤ p.2.holdUntil) ∧
      (∀ q ∈ n'.topologyTable, ∀ r ∈ q.2, n'.currentTime ≤ r.2.holdUntil) := by
    intro n₁ out₁ heq
    have h1 := tickRest_hold n₁ out₁
    rw [heq] at h1
    exact h1
  cases incoming with
  | none =>
    simp only [tick] at h
    exact key n [] (Option.some_inj.1 h)
  | some msg =>
    cases hh : handler n msg with
    | none =>
      simp only [tick, hh] at h
      exact absurd h (by simp)
    | some p =>
      simp only [tick, hh] at h
      exact key p.1 p.2 (Option.some_inj.1 h)

/-- Witness for C1 (amended): one silent tick from `witNode` keeps the
not-yet-expired entry and leaves it exactly at the new current time. -/
theorem tick_hold_ge_witness :
    (∀ p ∈ witTick.1.oneHopNeighbors, witTick.1.currentTime ≤ p.2.holdUntil) ∧
    (∀ q ∈ witTick.1.topologyTable, ∀ r ∈ q.2, witTick.1.currentTime ≤ r.2.holdUntil) :=
  tick_hold_ge witNode witTick.1 none witTick.2 rfl

/-- Counterexample to C1 as stated: after the HELLO at tick 0 and 14 more
ticks, the run reaches `currentTime = 15` while the surviving one-hop entry
for node 1 has `holdUntil = 15`, so the strict bound
`holdUntil > currentTime` is violated. -/
theorem tick_hold_strict_counterexample :
    (runNode 0 c1Inputs).isSome = true ∧
    (1, ({ neighborID := 1, state := .Unidirectional, holdUntil := 15 } : OneHopNeighborEntry)) ∈
      c1State.oneHopNeighbors ∧
    c1State.currentTime = 15 ∧
    ¬ holdDiscipline c1State := by
  refine ⟨rfl, ?_, rfl, ?_⟩
  · decide
  · decide

/-! ### Claim C4 -/

/-- C4: for a stored `topologyTable[d][msg.src]` entry with sequence number
`p`, a later TC from the same source carrying `d` leaves the entry
completely unchanged when its sequence number `q` satisfies `q ≤ p`, and
when `q > p` refreshes only `holdUntil` to `now + topologyHoldTime` while
`msSeqNum` keeps the old value `p`. -/
theorem topo_dedup (n : Node) (msg : TCMessage) (d : NodeID) (e : TopologyEntry)
    (hsrc : msg.src ≠ n.id)
    (he : topoFind n.topologyTable d msg.src = some e)
    (hd : d ∈ msg.ms) :
    (msg.seq ≤ e.msSeqNum →
      topoFind (handleTC n msg).1.topologyTable d msg.src = some e) ∧
    (e.msSeqNum < msg.seq →
      topoFind (handleTC n msg).1.topologyTable d msg.src =
        some { e with holdUntil := n.currentTime + n.topologyHoldTime }) := by
  rw [handleTC_other n msg hsrc]
  constructor
  · intro hq
    exact foldl_topoStep_stale msg _ d e (Nat.not_lt.2 hq) msg.ms n.topologyTable he
  · intro hq
    exact foldl_topoStep_refresh msg _ d e hq msg.ms n.topologyTable he hd

/-- Witness for C4: an equal sequence number leaves the entry alone; a
newer one refreshes only the hold (130 + 50 = 180) and keeps `msSeqNum` 7. -/
theorem topo_dedup_witness :
    topoFind (handleTC c4Node { src := 5, fromnbr := 5, seq := 7, ms := [9] }).1.topologyTable
        9 5 = some { dst := 9, dstMPR := 5, msSeqNum := 7, holdUntil := 150 } ∧
    topoFind (handleTC c4Node { src := 5, fromnbr := 5, seq := 8, ms := [9] }).1.topologyTable
        9 5 = some { dst := 9, dstMPR := 5, msSeqNum := 7, holdUntil := 180 } :=
  ⟨(topo_dedup c4Node { src := 5, fromnbr := 5, seq := 7, ms := [9] } 9
      { dst := 9, dstMPR := 5, msSeqNum := 7, holdUntil := 150 }
      (by decide) rfl (by decide)).1 (by decide),
   (topo_dedup c4Node { src := 5, fromnbr := 5, seq := 8, ms := [9] } 9
      { dst := 9, dstMPR := 5, msSeqNum := 7, holdUntil := 150 }
      (by decide) rfl (by decide)).2 (by decide)⟩

/-! ### Claim C5 -/

/-- C5: `NewNode` sets `neighborHoldTime` to 15 and leaves
`topologyHoldTime` at its zero value 0; consequently, on a node whose
`topologyHoldTime` is 0, every topology entry the TC handler writes at tick
`t` has `holdUntil = t + 0 = t`. -/
theorem newNode_topologyHold_zero (id : NodeID) (n : Node) (msg : TCMessage)
    (h0 : n.topologyHoldTime = 0) :
    (NewNode id).neighborHoldTime = 15 ∧
    (NewNode id).topologyHoldTime = 0 ∧
    ∀ d s e, topoFind (handleTC n msg).1.topologyTable d s = some e →
      topoFind n.topologyTable d s = some e ∨ e.holdUntil = n.currentTime := by
  refine ⟨rfl, rfl, ?_⟩
  intro d s e he
  by_cases hsrc : msg.src = n.id
  · rw [handleTC_own n msg hsrc] at he
    exact Or.inl he
  · rw [handleTC_other n msg hsrc] at he
    rcases foldl_topoStep_backward msg (n.currentTime + n.topologyHoldTime) d s e msg.ms
        n.topologyTable he with h | h
    · exact Or.inl h
    · rw [h0, Nat.add_zero] at h
      exact Or.inr h

/-- Witness for C5: a fresh node that handles a TC at tick 0 stores the new
entry with `holdUntil = 0`, i.e. already expired. -/
theorem newNode_topologyHold_zero_witness :
    topoFind (NewNode 0).topologyTable 9 5 =
        some { dst := 9, dstMPR := 5, msSeqNum := 3, holdUntil := 0 } ∨
    ({ dst := 9, dstMPR := 5, msSeqNum := 3, holdUntil := 0 } : TopologyEntry).holdUntil =
        (NewNode 0).currentTime :=
  (newNode_topologyHold_zero 7 (NewNode 0) { src := 5, fromnbr := 5, seq := 3, ms := [9] }
      rfl).2.2 9 5 { dst := 9, dstMPR := 5, msSeqNum := 3, holdUntil := 0 } rfl

/-! ### Claim C6 -/

/-- C6: after a successful `handleHello` of a message from `s = msg.src`,
the two-hop set stored under `s` is exactly the union of the unidir and
bidir lists of the message with the node's own id removed; the previous set
is replaced and the mpr list contributes nothing. -/
theorem handleHello_twoHop_fresh (n n' : Node) (msg : HelloMessage)
    (h : handleHello n msg = some n') (x : NodeID) :
    x ∈ twoHopsOf n'.twoHopNeighbors msg.src ↔
      ((x ∈ msg.unidir ∨ x ∈ msg.bidir) ∧ x ≠ n.id) := by
  obtain ⟨one₁, hc, rfl⟩ := handleHello_some h
  have h2 :
      mapFind msg.src (updateTwoHopNeighbors msg n.twoHopNeighbors n.id) =
        some ((msg.unidir ++ msg.bidir).foldl
          (fun s y => if y = n.id then s else setInsert s y) []) :=
    mapFind_mapInsert_self _ _ _
  show x ∈ twoHopsOf (updateTwoHopNeighbors msg n.twoHopNeighbors n.id) msg.src ↔ _
  rw [twoHopsOf, h2, Option.getD_some, mem_foldl_skipInsert]
  simp [List.mem_append]

/-- Witness for C6: the HELLO `c6msg` handled by a fresh node 0 stores
exactly `{2, 3}` under key 1. -/
theorem handleHello_twoHop_fresh_witness :
    (2 ∈ twoHopsOf c6res.twoHopNeighbors c6msg.src ↔
      ((2 ∈ c6msg.unidir ∨ 2 ∈ c6msg.bidir) ∧ 2 ≠ (NewNode 0).id)) ∧
    (0 ∈ twoHopsOf c6res.twoHopNeighbors c6msg.src ↔
      ((0 ∈ c6msg.unidir ∨ 0 ∈ c6msg.bidir) ∧ 0 ≠ (NewNode 0).id)) :=
  ⟨handleHello_twoHop_fresh (NewNode 0) c6res c6msg rfl 2,
   handleHello_twoHop_fresh (NewNode 0) c6res c6msg rfl 0⟩

/-! ### Claim C7 -/

/-- C7: on a TC message from itself, the node drops the message silently
with the whole state unchanged and emits nothing; on any other TC it
updates the topology table and unconditionally re-emits the message with
`fromnbr` rewritten to its own id, with no MS-set check on the previous
hop. -/
theorem handleTC_drop_own_and_forward (n : Node) (msg : TCMessage) :
    (msg.src = n.id → handleTC n msg = (n, [])) ∧
    (msg.src ≠ n.id →
      handleTC n msg =
        ({ n with
            topologyTable :=
              updateTopologyTable msg n.topologyTable (n.currentTime + n.topologyHoldTime) },
         [Message.tc { msg with fromnbr := n.id }])) :=
  ⟨handleTC_own n msg, handleTC_other n msg⟩

/-- Witness for C7: both branches at concrete inputs. -/
theorem handleTC_drop_own_and_forward_witness :
    handleTC (NewNode 3) { src := 3, fromnbr := 2, seq := 5, ms := [1] } = (NewNode 3, []) ∧
    handleTC (NewNode 3) { src := 4, fromnbr := 4, seq := 5, ms := [1] } =
      ({ NewNode 3 with
          topologyTable :=
            updateTopologyTable { src := 4, fromnbr := 4, seq := 5, ms := [1] }
              (NewNode 3).topologyTable
              ((NewNode 3).currentTime + (NewNode 3).topologyHoldTime) },
       [Message.tc { src := 4, fromnbr := 3, seq := 5, ms := [1] }]) :=
  ⟨(handleTC_drop_own_and_forward (NewNode 3) { src := 3, fromnbr := 2, seq := 5, ms := [1] }).1
      rfl,
   (handleTC_drop_own_and_forward (NewNode 3) { src := 4, fromnbr := 4, seq := 5, ms := [1] }).2
      (by decide)⟩

/-! ### Claim C10 -/

/-- C10: on a TC message from another node, `handleTC` changes only the
topology table and the forwarded copy's `fromnbr`: the one-hop table, the
two-hop table, the MS set, the TC sequence counter, the clock and both hold
times are untouched, and the single emitted message keeps `src`, `seq` and
`ms` while `fromnbr` becomes the node's own id. -/
theorem handleTC_frame (n : Node) (msg : TCMessage) (h : msg.src ≠ n.id) :
    (handleTC n msg).1.oneHopNeighbors = n.oneHopNeighbors ∧
    (handleTC n msg).1.twoHopNeighbors = n.twoHopNeighbors ∧
    (handleTC n msg).1.msSet = n.msSet ∧
    (handleTC n msg).1.tcSequenceNum = n.tcSequenceNum ∧
    (handleTC n msg).1.currentTime = n.currentTime ∧
    (handleTC n msg).1.neighborHoldTime = n.neighborHoldTime ∧
    (handleTC n msg).1.topologyHoldTime = n.topologyHoldTime ∧
    (handleTC n msg).1.id = n.id ∧
    (handleTC n msg).2 =
      [Message.tc { src := msg.src, fromnbr := n.id, seq := msg.seq, ms := msg.ms }] := by
  rw [handleTC_other n msg h]
  exact ⟨rfl, rfl, rfl, rfl, rfl, rfl, rfl, rfl, rfl⟩

/-- Witness for C10 at a concrete node and message. -/
theorem handleTC_frame_witness :
    (handleTC (NewNode 3) { src := 4, fromnbr := 4, seq := 5, ms := [1] }).1.oneHopNeighbors =
        (NewNode 3).oneHopNeighbors ∧
    (handleTC (NewNode 3) { src := 4, fromnbr := 4, seq := 5, ms := [1] }).1.twoHopNeighbors =
        (NewNode 3).twoHopNeighbors ∧
    (handleTC (NewNode 3) { src := 4, fromnbr := 4, seq := 5, ms := [1] }).1.msSet =
        (NewNode 3).msSet ∧
    (handleTC (NewNode 3) { src := 4, fromnbr := 4, seq := 5, ms := [1] }).1.tcSequenceNum =
        (NewNode 3).tcSequenceNum ∧
    (handleTC (NewNode 3) { src := 4, fromnbr := 4, seq := 5, ms := [1] }).1.currentTime =
        (NewNode 3).currentTime ∧
    (handleTC (NewNode 3) { src := 4, fromnbr := 4, seq := 5, ms := [1] }).1.neighborHoldTime =
        (NewNode 3).neighborHoldTime ∧
    (handleTC (NewNode 3) { src := 4, fromnbr := 4, seq := 5, ms := [1] }).1.topologyHoldTime =
        (NewNode 3).topologyHoldTime ∧
    (handleTC (NewNode 3) { src := 4, fromnbr := 4, seq := 5, ms := [1] }).1.id = (NewNode 3).id ∧
    (handleTC (NewNode 3) { src := 4, fromnbr := 4, seq := 5, ms := [1] }).2 =
      [Message.tc { src := 4, fromnbr := 3, seq := 5, ms := [1] }] :=
  handleTC_frame (NewNode 3) { src := 4, fromnbr := 4, seq := 5, ms := [1] } (by decide)

/-! ### Helper lemmas for HELLO idempotence -/

theorem adjustEntry_neighborID (mprs : List NodeID) (k : NodeID) (e : OneHopNeighborEntry) :
    (adjustEntry mprs k e).neighborID = e.neighborID := by
  unfold adjustEntry
  split_ifs <;> rfl

theorem adjustEntry_holdUntil (mprs : List NodeID) (k : NodeID) (e : OneHopNeighborEntry) :
    (adjustEntry mprs k e).holdUntil = e.holdUntil := by
  unfold adjustEntry
  split_ifs <;> rfl

theorem adjustEntry_idem (mprs : List NodeID) (k : NodeID) (e : OneHopNeighborEntry) :
    adjustEntry mprs k (adjustEntry mprs k e) = adjustEntry mprs k e := by
  by_cases hk : k ∈ mprs
  · simp [adjustEntry, hk]
  · by_cases hs : e.state = .MPR
    · simp [adjustEntry, hk, hs]
    · simp [adjustEntry, hk, hs]

/-- `{ e with holdUntil := h }` is `e` itself when the hold already is `h`. -/
theorem oneHopEntry_hold_eta {e : OneHopNeighborEntry} {h : Nat} (hh : e.holdUntil = h) :
    { e with holdUntil := h } = e := by
  cases e
  simp only at hh
  rw [hh]

/-- The state rewrite of `calculateMPRs` never creates or destroys the
`Unidirectional` state, provided the selected set avoids Unidirectional
entries. -/
theorem adjustEntry_state_uni (mprs : List NodeID) (k : NodeID) (e : OneHopNeighborEntry)
    (hm : k ∈ mprs → e.state ≠ .Unidirectional) :
    ((adjustEntry mprs k e).state = .Unidirectional ↔ e.state = .Unidirectional) := by
  by_cases hk : k ∈ mprs
  · simp [adjustEntry, hk, hm hk]
  · by_cases hs : e.state = .MPR
    · simp [adjustEntry, hk, hs]
    · simp [adjustEntry, hk, hs]

theorem mapFind_applyMPRs (mprs : List NodeID) (k : NodeID) (one : MapN OneHopNeighborEntry) :
    mapFind k (applyMPRs mprs one) = (mapFind k one).map (adjustEntry mprs k) :=
  mapFind_map _ _ _

theorem applyMPRs_mapInsert (mprs : List NodeID) (k : NodeID) (e : OneHopNeighborEntry)
    (one : MapN OneHopNeighborEntry) :
    applyMPRs mprs (mapInsert k e one) =
      mapInsert k (adjustEntry mprs k e) (applyMPRs mprs one) := by
  induction one with
  | nil => simp [mapInsert, applyMPRs]
  | cons p rest ih =>
    by_cases hp : p.1 = k
    · simp [mapInsert, applyMPRs, hp]
    · simp only [mapInsert, if_neg hp, applyMPRs, List.map_cons] at ih ⊢
      rw [ih]

theorem applyMPRs_idem (mprs : List NodeID) (one : MapN OneHopNeighborEntry) :
    applyMPRs mprs (applyMPRs mprs one) = applyMPRs mprs one := by
  unfold applyMPRs
  rw [List.map_map]
  apply List.map_congr_left
  intro p _
  simp [Function.comp, adjustEntry_idem]

/-- Absorbing a reinsertion whose adjusted entry agrees with the stored one. -/
theorem applyMPRs_insert_absorb (mprs : List NodeID) (one : MapN OneHopNeighborEntry)
    (src : NodeID) (e₁ e₂ : OneHopNeighborEntry)
    (h₂ : adjustEntry mprs src e₂ = adjustEntry mprs src e₁) :
    applyMPRs mprs (mapInsert src e₂ (applyMPRs mprs (mapInsert src e₁ one))) =
      applyMPRs mprs (mapInsert src e₁ one) := by
  rw [applyMPRs_mapInsert, applyMPRs_idem, h₂]
  apply mapInsert_find_self
  rw [mapFind_applyMPRs, mapFind_mapInsert_self]
  rfl

/-- Demoting a freshly adjusted bidirectional entry back to bidirectional
and adjusting again is absorbed. -/
theorem adjustEntry_absorb_bid (mprs : List NodeID) (src : NodeID) (e₁ : OneHopNeighborEntry)
    (h₁ : e₁.state = .Bidirectional) :
    adjustEntry mprs src { adjustEntry mprs src e₁ with state := .Bidirectional } =
      adjustEntry mprs src e₁ := by
  obtain ⟨a, b, c⟩ := e₁
  simp only at h₁
  subst h₁
  by_cases hk : src ∈ mprs
  · simp [adjustEntry, hk]
  · simp [adjustEntry, hk]

/-- The candidate filter only depends on which keys read as Unidirectional. -/
theorem filter_cands_congr (oneA oneB : MapN OneHopNeighborEntry) (two : MapN (List NodeID))
    (huni : ∀ k ∈ mapKeys two,
      (neighborStateOf oneB k = .Unidirectional ↔ neighborStateOf oneA k = .Unidirectional)) :
    (two.filter fun p => decide (neighborStateOf oneB p.1 ≠ .Unidirectional)) =
      (two.filter fun p => decide (neighborStateOf oneA p.1 ≠ .Unidirectional)) := by
  apply List.filter_congr
  intro p hp
  exact decide_eq_decide.2 (not_congr (huni p.1 (List.mem_map_of_mem Prod.fst hp)))

/-- Uni-ness of a key after `applyMPRs` with a selection avoiding
Unidirectional keys. -/
theorem neighborStateOf_applyMPRs_uni (mprs : List NodeID) (one : MapN OneHopNeighborEntry)
    (k : NodeID) (hm : ∀ c ∈ mprs, neighborStateOf one c ≠ .Unidirectional) :
    (neighborStateOf (applyMPRs mprs one) k = .Unidirectional ↔
      neighborStateOf one k = .Unidirectional) := by
  unfold neighborStateOf
  rw [mapFind_applyMPRs]
  cases hf : mapFind k one with
  | none => simp
  | some e =>
    simp only [Option.map_some]
    refine adjustEntry_state_uni mprs k e fun hk => ?_
    have := hm k hk
    rw [neighborStateOf, hf] at this
    exact this

/-- Rebuild `calculateMPRs` from a successful greedy run. -/
theorem calculateMPRs_of_greedy (one : MapN OneHopNeighborEntry) (two : MapN (List NodeID))
    (mprs : List NodeID)
    (hg : greedyMPRs two
        (sortAsc
          ((two.filter fun p => decide (neighborStateOf one p.1 ≠ .Unidirectional)).map
            Prod.fst))
        ((two.filter fun p => decide (neighborStateOf one p.1 ≠ .Unidirectional)).foldl
          (fun s p => p.2.foldl setInsert s) [])
        [] = some mprs) :
    calculateMPRs one two = some (applyMPRs mprs one) := by
  unfold calculateMPRs
  simp only [hg]

/-- The greedy selection avoids keys that read as Unidirectional. -/
theorem greedy_mprs_nonUni (one : MapN OneHopNeighborEntry) (two : MapN (List NodeID))
    (mprs : List NodeID)
    (hg : greedyMPRs two
        (sortAsc
          ((two.filter fun p => decide (neighborStateOf one p.1 ≠ .Unidirectional)).map
            Prod.fst))
        ((two.filter fun p => decide (neighborStateOf one p.1 ≠ .Unidirectional)).foldl
          (fun s p => p.2.foldl setInsert s) [])
        [] = some mprs) :
    ∀ c ∈ mprs, neighborStateOf one c ≠ .Unidirectional := by
  intro c hc
  rcases greedyMPRs_sub two _ _ _ mprs hg c hc with h | h
  · exact absurd h (by simp)
  · rw [mem_sortAsc] at h
    obtain ⟨p, hp, rfl⟩ := List.mem_map.1 h
    have := (List.mem_filter.1 hp).2
    simpa using this

/-- The MS-set update of `handleHello` is idempotent. -/
theorem updateMSSet_idem (ms : List NodeID) (src : NodeID) (b : Bool) :
    updateMSSet (updateMSSet ms src b) src b = updateMSSet ms src b := by
  by_cases hmem : src ∈ ms
  · cases b
    · have hnot : src ∉ ms.filter fun x => decide (x ≠ src) := by simp
      simp [updateMSSet, hmem, hnot]
    · simp [updateMSSet, hmem]
  · cases b
    · simp [updateMSSet, hmem]
    · have hin : src ∈ ms ++ [src] := by simp
      simp [updateMSSet, hmem, hin]

/-- The state read back for a freshly inserted key. -/
theorem neighborStateOf_mapInsert_self (src : NodeID) (e : OneHopNeighborEntry)
    (m : MapN OneHopNeighborEntry) :
    neighborStateOf (mapInsert src e m) src = e.state := by
  simp only [neighborStateOf, mapFind_mapInsert_self]

/-- Closed form of a successful `handleHello`. -/
theorem handleHello_eq_some (n : Node) (msg : HelloMessage) (one₁ : MapN OneHopNeighborEntry)
    (hc : calculateMPRs
        (updateOneHopNeighbors msg n.oneHopNeighbors (n.currentTime + n.neighborHoldTime) n.id)
        (updateTwoHopNeighbors msg n.twoHopNeighbors n.id) = some one₁) :
    handleHello n msg =
      some { n with
        oneHopNeighbors := one₁
      , twoHopNeighbors := updateTwoHopNeighbors msg n.twoHopNeighbors n.id
      , msSet := updateMSSet n.msSet msg.src (decide (n.id ∈ msg.mpr)) } := by
  unfold handleHello
  simp only [hc]

/-! ### Claim C3 -/

/-- C3 (amended): handling the same HELLO twice at the same tick produces
the same post-state as handling it once, PROVIDED the sender is already in
the one-hop table.  For an unknown sender the first pass inserts it as
Unidirectional regardless of the message content and only the second pass
can promote it to Bidirectional, see the counterexample. -/
theorem handleHello_idem (n : Node) (msg : HelloMessage) (e₀ : OneHopNeighborEntry) (n₁ : Node)
    (hpres : mapFind msg.src n.oneHopNeighbors = some e₀)
    (h1 : handleHello n msg = some n₁) :
    handleHello n₁ msg = some n₁ := by
  obtain ⟨O1, hc, hn₁⟩ := handleHello_some h1
  have hone : n₁.oneHopNeighbors = O1 := by rw [hn₁]
  have htwo : n₁.twoHopNeighbors = updateTwoHopNeighbors msg n.twoHopNeighbors n.id := by
    rw [hn₁]
  have hmss : n₁.msSet = updateMSSet n.msSet msg.src (decide (n.id ∈ msg.mpr)) := by rw [hn₁]
  have hid : n₁.id = n.id := by rw [hn₁]
  have htime : n₁.currentTime = n.currentTime := by rw [hn₁]
  have hnbh : n₁.neighborHoldTime = n.neighborHoldTime := by rw [hn₁]
  have htwo2 : updateTwoHopNeighbors msg (updateTwoHopNeighbors msg n.twoHopNeighbors n.id) n.id
      = updateTwoHopNeighbors msg n.twoHopNeighbors n.id := mapInsert_mapInsert _ _ _ _
  have hmsi := updateMSSet_idem n.msSet msg.src (decide (n.id ∈ msg.mpr))
  by_cases hmem : n.id ∈ msg.unidir ++ (msg.bidir ++ msg.mpr)
  · -- the sender listed us: the refreshed entry is Bidirectional
    set E₁ : OneHopNeighborEntry :=
      { e₀ with holdUntil := n.currentTime + n.neighborHoldTime, state := .Bidirectional }
      with hE₁
    have hU1 : updateOneHopNeighbors msg n.oneHopNeighbors
        (n.currentTime + n.neighborHoldTime) n.id = mapInsert msg.src E₁ n.oneHopNeighbors := by
      simp only [updateOneHopNeighbors, hpres, if_pos hmem, hE₁]
    rw [hU1] at hc
    obtain ⟨mprs, hg, hO1⟩ := calculateMPRs_inv _ _ _ hc
    have hnonUni := greedy_mprs_nonUni _ _ _ hg
    set A := adjustEntry mprs msg.src E₁ with hA
    have hstE₁ : E₁.state = .Bidirectional := by rw [hE₁]
    have hhA : A.holdUntil = n.currentTime + n.neighborHoldTime := by
      rw [hA, adjustEntry_holdUntil, hE₁]
    have hfindO1 : mapFind msg.src O1 = some A := by
      rw [hO1, mapFind_applyMPRs, mapFind_mapInsert_self, hA]
      rfl
    have hU2 : updateOneHopNeighbors msg O1 (n.currentTime + n.neighborHoldTime) n.id =
        mapInsert msg.src
          (⟨A.neighborID, .Bidirectional, n.currentTime + n.neighborHoldTime⟩ :
            OneHopNeighborEntry) O1 := by
      simp only [updateOneHopNeighbors, hfindO1, if_pos hmem]
    have hcrux : adjustEntry mprs msg.src
        (⟨A.neighborID, .Bidirectional, n.currentTime + n.neighborHoldTime⟩ :
          OneHopNeighborEntry) = A := by
      rw [← hhA, hA]
      exact adjustEntry_absorb_bid mprs msg.src E₁ hstE₁
    have huni : ∀ k ∈ mapKeys (updateTwoHopNeighbors msg n.twoHopNeighbors n.id),
        (neighborStateOf
            (mapInsert msg.src
              (⟨A.neighborID, .Bidirectional, n.currentTime + n.neighborHoldTime⟩ :
                OneHopNeighborEntry) O1) k = .Unidirectional ↔
          neighborStateOf (mapInsert msg.src E₁ n.oneHopNeighbors) k = .Unidirectional) := by
      intro k _
      by_cases hks : k = msg.src
      · subst hks
        rw [neighborStateOf_mapInsert_self, neighborStateOf_mapInsert_self, hstE₁]
      · have hL : neighborStateOf
            (mapInsert msg.src
              (⟨A.neighborID, .Bidirectional, n.currentTime + n.neighborHoldTime⟩ :
                OneHopNeighborEntry) O1) k = neighborStateOf O1 k := by
          unfold neighborStateOf
          rw [mapFind_mapInsert_ne _ _ hks]
        rw [hL, hO1]
        exact neighborStateOf_applyMPRs_uni mprs _ k hnonUni
    have hg2 := hg
    rw [← filter_cands_congr _ _ _ huni] at hg2
    have hcalc2 := calculateMPRs_of_greedy _ _ mprs hg2
    have habs : applyMPRs mprs
        (mapInsert msg.src
          (⟨A.neighborID, .Bidirectional, n.currentTime + n.neighborHoldTime⟩ :
            OneHopNeighborEntry) O1) = O1 := by
      rw [hO1]
      exact applyMPRs_insert_absorb mprs n.oneHopNeighbors msg.src _ _ hcrux
    have hcfin : calculateMPRs
        (updateOneHopNeighbors msg n₁.oneHopNeighbors
          (n₁.currentTime + n₁.neighborHoldTime) n₁.id)
        (updateTwoHopNeighbors msg n₁.twoHopNeighbors n₁.id) = some n₁.oneHopNeighbors := by
      rw [hone, htwo, hid, htime, hnbh, htwo2, hU2, hcalc2, habs]
    rw [handleHello_eq_some n₁ msg n₁.oneHopNeighbors hcfin]
    rw [show updateTwoHopNeighbors msg n₁.twoHopNeighbors n₁.id = n₁.twoHopNeighbors from by
      rw [htwo, hid]; exact htwo2]
    rw [show updateMSSet n₁.msSet msg.src (decide (n₁.id ∈ msg.mpr)) = n₁.msSet from by
      rw [hmss, hid]; exact hmsi]
  · -- the sender did not list us: only the hold is refreshed
    set E₁ : OneHopNeighborEntry := { e₀ with holdUntil := n.currentTime + n.neighborHoldTime }
      with hE₁
    have hU1 : updateOneHopNeighbors msg n.oneHopNeighbors
        (n.currentTime + n.neighborHoldTime) n.id = mapInsert msg.src E₁ n.oneHopNeighbors := by
      simp only [updateOneHopNeighbors, hpres, if_neg hmem, hE₁]
    rw [hU1] at hc
    obtain ⟨mprs, hg, hO1⟩ := calculateMPRs_inv _ _ _ hc
    have hnonUni := greedy_mprs_nonUni _ _ _ hg
    have hE₁nonUni : msg.src ∈ mprs → E₁.state ≠ .Unidirectional := by
      intro hin
      have hthis := hnonUni msg.src hin
      simpa only [neighborStateOf, mapFind_mapInsert_self] using hthis
    set A := adjustEntry mprs msg.src E₁ with hA
    have hhA : A.holdUntil = n.currentTime + n.neighborHoldTime := by
      rw [hA, adjustEntry_holdUntil, hE₁]
    have hfindO1 : mapFind msg.src O1 = some A := by
      rw [hO1, mapFind_applyMPRs, mapFind_mapInsert_self, hA]
      rfl
    have hU2 : updateOneHopNeighbors msg O1 (n.currentTime + n.neighborHoldTime) n.id =
        mapInsert msg.src
          (⟨A.neighborID, A.state, n.currentTime + n.neighborHoldTime⟩ :
            OneHopNeighborEntry) O1 := by
      simp only [updateOneHopNeighbors, hfindO1, if_neg hmem]
    have heA : (⟨A.neighborID, A.state, n.currentTime + n.neighborHoldTime⟩ :
        OneHopNeighborEntry) = A := by
      rw [← hhA]
    have hcrux : adjustEntry mprs msg.src
        (⟨A.neighborID, A.state, n.currentTime + n.neighborHoldTime⟩ :
          OneHopNeighborEntry) = A := by
      rw [heA, hA]
      exact adjustEntry_idem mprs msg.src E₁
    have huni : ∀ k ∈ mapKeys (updateTwoHopNeighbors msg n.twoHopNeighbors n.id),
        (neighborStateOf
            (mapInsert msg.src
              (⟨A.neighborID, A.state, n.currentTime + n.neighborHoldTime⟩ :
                OneHopNeighborEntry) O1) k = .Unidirectional ↔
          neighborStateOf (mapInsert msg.src E₁ n.oneHopNeighbors) k = .Unidirectional) := by
      intro k _
      by_cases hks : k = msg.src
      · subst hks
        rw [neighborStateOf_mapInsert_self, neighborStateOf_mapInsert_self]
        exact adjustEntry_state_uni mprs msg.src E₁ hE₁nonUni
      · have hL : neighborStateOf
            (mapInsert msg.src
              (⟨A.neighborID, A.state, n.currentTime + n.neighborHoldTime⟩ :
                OneHopNeighborEntry) O1) k = neighborStateOf O1 k := by
          unfold neighborStateOf
          rw [mapFind_mapInsert_ne _ _ hks]
        rw [hL, hO1]
        exact neighborStateOf_applyMPRs_uni mprs _ k hnonUni
    have hg2 := hg
    rw [← filter_cands_congr _ _ _ huni] at hg2
    have hcalc2 := calculateMPRs_of_greedy _ _ mprs hg2
    have habs : applyMPRs mprs
        (mapInsert msg.src
          (⟨A.neighborID, A.state, n.currentTime + n.neighborHoldTime⟩ :
            OneHopNeighborEntry) O1) = O1 := by
      rw [hO1]
      exact applyMPRs_insert_absorb mprs n.oneHopNeighbors msg.src _ _ hcrux
    have hcfin : calculateMPRs
        (updateOneHopNeighbors msg n₁.oneHopNeighbors
          (n₁.currentTime + n₁.neighborHoldTime) n₁.id)
        (updateTwoHopNeighbors msg n₁.twoHopNeighbors n₁.id) = some n₁.oneHopNeighbors := by
      rw [hone, htwo, hid, htime, hnbh, htwo2, hU2, hcalc2, habs]
    rw [handleHello_eq_some n₁ msg n₁.oneHopNeighbors hcfin]
    rw [show updateTwoHopNeighbors msg n₁.twoHopNeighbors n₁.id = n₁.twoHopNeighbors from by
      rw [htwo, hid]; exact htwo2]
    rw [show updateMSSet n₁.msSet msg.src (decide (n₁.id ∈ msg.mpr)) = n₁.msSet from by
      rw [hmss, hid]; exact hmsi]

/-- Witness for C3 (amended): re-handling `c6msg` on a node that already
knows the sender is idempotent. -/
theorem handleHello_idem_witness : handleHello c3wn c6msg = some c3wn :=
  handleHello_idem c6res c6msg
    { neighborID := 1, state := .Unidirectional, holdUntil := 15 } c3wn rfl rfl

/-- Counterexample to C3 as stated: a fresh node 0 that handles `c3msg`
(whose bidir list names node 0) once records the unknown sender as
Unidirectional, but handling it twice records it as Bidirectional: the
post-states differ. -/
theorem handleHello_idem_counterexample :
    handleHello (NewNode 0) c3msg =
      some { NewNode 0 with
        oneHopNeighbors := [(1, { neighborID := 1, state := .Unidirectional, holdUntil := 15 })]
      , twoHopNeighbors := [(1, [])] } ∧
    (handleHello (NewNode 0) c3msg).bind (fun m => handleHello m c3msg) =
      some { NewNode 0 with
        oneHopNeighbors := [(1, { neighborID := 1, state := .Bidirectional, holdUntil := 15 })]
      , twoHopNeighbors := [(1, [])] } ∧
    (handleHello (NewNode 0) c3msg).bind (fun m => handleHello m c3msg) ≠
      handleHello (NewNode 0) c3msg := by
  refine ⟨rfl, rfl, ?_⟩
  decide

/-! ### Helper lemmas for TC sequence numbers -/

/-- `ownTCSeqs` distributes over concatenation. -/
theorem ownTCSeqs_append (id : NodeID) (a b : List Message) :
    ownTCSeqs id (a ++ b) = ownTCSeqs id a ++ ownTCSeqs id b :=
  List.filterMap_append a b _

/-- Message dispatch never changes the id, the TC counter or the clock, and
never emits a TC originated by the node itself. -/
theorem handler_seq_frame (n : Node) (msg : Message) (n₁ : Node) (out₁ : List Message)
    (h : handler n msg = some (n₁, out₁)) :
    n₁.id = n.id ∧ n₁.tcSequenceNum = n.tcSequenceNum ∧ n₁.currentTime = n.currentTime ∧
      ownTCSeqs n.id out₁ = [] := by
  cases msg with
  | hello m =>
    cases hh : handleHello n m with
    | none =>
      simp only [handler, hh] at h
      exact absurd h (by simp)
    | some n' =>
      simp only [handler, hh, Option.some.injEq, Prod.mk.injEq] at h
      obtain ⟨one₁, _, rfl⟩ := handleHello_some hh
      rw [← h.1, ← h.2]
      exact ⟨rfl, rfl, rfl, rfl⟩
  | data m =>
    simp only [handler, handleData, Option.some.injEq, Prod.mk.injEq] at h
    rw [← h.1, ← h.2]
    exact ⟨rfl, rfl, rfl, rfl⟩
  | tc m =>
    simp only [handler, Option.some.injEq] at h
    by_cases hsrc : m.src = n.id
    · rw [handleTC_own n m hsrc] at h
      cases h
      exact ⟨rfl, rfl, rfl, rfl⟩
    · rw [handleTC_other n m hsrc] at h
      cases h
      refine ⟨rfl, rfl, rfl, ?_⟩
      simp [ownTCSeqs, hsrc]

/-- Effect of `tickRest` on the TC counter and the emitted own-TC sequence
numbers. -/
theorem tickRest_seqs (n₁ : Node) (out₁ : List Message) :
    (tickRest n₁ out₁).1.id = n₁.id ∧
    (if n₁.currentTime % 10 = 0 then
        (tickRest n₁ out₁).1.tcSequenceNum = n₁.tcSequenceNum + 1 ∧
          ownTCSeqs n₁.id (tickRest n₁ out₁).2 = ownTCSeqs n₁.id out₁ ++ [n₁.tcSequenceNum]
      else
        (tickRest n₁ out₁).1.tcSequenceNum = n₁.tcSequenceNum ∧
          ownTCSeqs n₁.id (tickRest n₁ out₁).2 = ownTCSeqs n₁.id out₁) := by
  by_cases h10 : n₁.currentTime % 10 = 0
  · rw [if_pos h10]
    by_cases h5 : n₁.currentTime % 5 = 0
    · simp only [tickRest, if_pos h10, if_pos h5]
      refine ⟨rfl, rfl, ?_⟩
      rw [ownTCSeqs_append]
      simp [ownTCSeqs, sendTC]
    · simp only [tickRest, if_pos h10, if_neg h5]
      refine ⟨rfl, rfl, ?_⟩
      rw [ownTCSeqs_append]
      simp [ownTCSeqs, sendTC]
  · rw [if_neg h10]
    by_cases h5 : n₁.currentTime % 5 = 0
    · simp only [tickRest, if_neg h10, if_pos h5]
      refine ⟨rfl, rfl, ?_⟩
      rw [ownTCSeqs_append]
      simp [ownTCSeqs]
    · simp only [tickRest, if_neg h10, if_neg h5]
      refine ⟨rfl, rfl, ?_⟩
      rw [ownTCSeqs_append]
      simp [ownTCSeqs]

/-- Effect of one tick on the TC counter and the emitted own-TC sequence
numbers. -/
theorem tick_seqs (n : Node) (incoming : Option Message) (n' : Node) (outs : List Message)
    (h : tick n incoming = some (n', outs)) :
    n'.id = n.id ∧
    (if n.currentTime % 10 = 0 then
        n'.tcSequenceNum = n.tcSequenceNum + 1 ∧ ownTCSeqs n.id outs = [n.tcSequenceNum]
      else
        n'.tcSequenceNum = n.tcSequenceNum ∧ ownTCSeqs n.id outs = []) := by
  cases incoming with
  | none =>
    simp only [tick] at h
    have hp := Option.some_inj.1 h
    have hs := tickRest_seqs n []
    rw [hp] at hs
    simpa [ownTCSeqs] using hs
  | some msg =>
    cases hh : handler n msg with
    | none =>
      simp only [tick, hh] at h
      exact absurd h (by simp)
    | some p =>
      simp only [tick, hh] at h
      have hp := Option.some_inj.1 h
      obtain ⟨hid, hseq, htime, hout⟩ :=
        handler_seq_frame n msg p.1 p.2 (by rw [hh])
      have hs := tickRest_seqs p.1 p.2
      rw [hp] at hs
      rw [htime, hid, hout, hseq] at hs
      simpa using hs

/-- The own-TC sequence numbers emitted over a run form the contiguous
range from the initial to the final counter value. -/
theorem runLoop_seqs (inputs : List (Option Message)) :
    ∀ n nf msgs, runLoop n inputs = some (nf, msgs) →
      nf.id = n.id ∧ ∃ k, nf.tcSequenceNum = n.tcSequenceNum + k ∧
        ownTCSeqs n.id msgs = List.range' n.tcSequenceNum k := by
  induction inputs with
  | nil =>
    intro n nf msgs h
    simp only [runLoop, Option.some.injEq, Prod.mk.injEq] at h
    rw [← h.1, ← h.2]
    exact ⟨rfl, 0, rfl, rfl⟩
  | cons inp rest ih =>
    intro n nf msgs h
    simp only [runLoop] at h
    cases ht : tick n inp with
    | none =>
      simp only [ht] at h
      exact absurd h (by simp)
    | some p =>
      simp only [ht] at h
      cases hr : runLoop p.1 rest with
      | none =>
        simp only [hr] at h
        exact absurd h (by simp)
      | some q =>
        simp only [hr, Option.some.injEq, Prod.mk.injEq] at h
        obtain ⟨hid1, hif⟩ := tick_seqs n inp p.1 p.2 (by rw [ht])
        obtain ⟨hid2, k, hk, hseq⟩ := ih p.1 q.1 q.2 (by rw [hr])
        rw [← h.1, ← h.2]
        refine ⟨by rw [hid2, hid1], ?_⟩
        by_cases h10 : n.currentTime % 10 = 0
        · rw [if_pos h10] at hif
          refine ⟨k + 1, ?_, ?_⟩
          · rw [hk, hif.1, Nat.add_assoc, Nat.add_comm 1 k]
          · rw [ownTCSeqs_append, hif.2, hid1] at *
            rw [hseq, hif.1, List.range'_succ]
            rfl
        · rw [if_neg h10] at hif
          refine ⟨k, ?_, ?_⟩
          · rw [hk, hif.1]
          · rw [ownTCSeqs_append, hif.2, hid1] at *
            rw [hseq, hif.1]
            rfl

/-! ### Claim C8 -/

/-- C8 (amended): over every completed run of the tick loop from a fresh
node, the sequence numbers of the TC messages the node ORIGINATES (src
equal to its own id) are exactly `0, 1, 2, …` up to the final counter
value: strictly increasing in emission order and starting at 0.  TC
messages merely forwarded by `handleTC` carry foreign sequence numbers and
break the claim when counted, see the counterexample. -/
theorem runNode_ownTCSeqs (id : NodeID) (inputs : List (Option Message)) (nf : Node)
    (msgs : List Message) (h : runNode id inputs = some (nf, msgs)) :
    ownTCSeqs id msgs = List.range nf.tcSequenceNum ∧
    List.Pairwise (· < ·) (ownTCSeqs id msgs) := by
  obtain ⟨hid, k, hk, hseq⟩ := runLoop_seqs inputs _ nf msgs h
  have hk' : nf.tcSequenceNum = 0 + k := hk
  have hseq' : ownTCSeqs id msgs = List.range' 0 k := hseq
  rw [hseq', hk', Nat.zero_add, ← List.range_eq_range']
  exact ⟨rfl, List.pairwise_lt_range k⟩

/-- Witness for C8 (amended): over the run on `c8Inputs` the node's own TC
sequence numbers form an initial range. -/
theorem runNode_ownTCSeqs_witness :
    ownTCSeqs 0 c8run.2 = List.range c8run.1.tcSequenceNum ∧
    List.Pairwise (· < ·) (ownTCSeqs 0 c8run.2) :=
  runNode_ownTCSeqs 0 c8Inputs c8run.1 c8run.2 rfl

/-- Counterexample to C8 as stated: on `c8Inputs` the node forwards the
foreign TC (sequence 99) before emitting its own first TC (sequence 0), so
the sequence numbers of the TC messages it emits are `[99, 0]`: not
strictly increasing, and the first emitted TC does not carry 0. -/
theorem runNode_allTCSeqs_counterexample :
    allTCSeqs c8run.2 = [99, 0] ∧
    ¬ List.Pairwise (· < ·) (allTCSeqs c8run.2) ∧
    allTCSeqs c8run.2 ≠ List.range (allTCSeqs c8run.2).length := by
  refine ⟨rfl, ?_, by decide⟩
  intro hp
  rw [show allTCSeqs c8run.2 = [99, 0] from rfl] at hp
  have := List.rel_of_pairwise_cons hp (List.mem_singleton.2 rfl)
  exact absurd this (by decide)

end Olsr
